import Mathlib

set_option maxHeartbeats 1000000

namespace Gopose

/- Shallow embedding of the conflict-detection-and-resolution engine of the
gopose repository.  Go maps that are only iterated are embedded as association
lists in iteration order; Go slices as lists; ports as naturals (the Go fields
are ints that are non-negative on every path that reaches this code).  Logging
calls and the human-readable Description/Reason strings are dropped: they feed
no decision in the embedded code. -/

/-- pkg/types PortMapping.  HostIP is never read by the verified code and is
omitted. -/
structure PortMapping where
  host : Nat
  container : Nat
  protocol : String
deriving DecidableEq

/-- pkg/types PortRange; the Go field named End is called stop here because
end is a Lean keyword. -/
structure PortRange where
  start : Nat
  stop : Nat
deriving DecidableEq

/-- pkg/types PortConfig. -/
structure PortConfig where
  range : PortRange
  reserved : List Nat
  excludePrivileged : Bool
deriving DecidableEq

/-- scanner.PortDetector.DetectUsedPortsInRange: the system probe filtered to
the configured range.  The probe result itself is the parameter used. -/
def detectUsedPortsInRange (used : List Nat) (r : PortRange) : List Nat :=
  used.filter (fun p => decide (r.start ≤ p) && decide (p ≤ r.stop))

/-- The exclusion test built inside scanner.PortAllocatorImpl.AllocatePort:
used-in-range ports, reserved ports, and the privileged ports 1..1023 when
ExcludePrivileged is set. -/
def excludedPort (cfg : PortConfig) (usedInRange : List Nat) (p : Nat) : Bool :=
  usedInRange.contains p || cfg.reserved.contains p ||
    (cfg.excludePrivileged && decide (1 ≤ p) && decide (p ≤ 1023))

/-- The forward scan loop of AllocatePort (for port := Start; port <= End;
port++): the first port of [lo, hi] on which excl is false, none when the
interval is exhausted. -/
def allocScan (excl : Nat → Bool) (lo hi : Nat) : Option Nat :=
  (List.range' lo (hi + 1 - lo)).find? (fun p => !excl p)

/-- scanner.PortAllocatorImpl.AllocatePort: probe the used ports restricted to
cfg.range, then scan cfg.range for the first port that is neither used nor
reserved nor (when configured) privileged.  The Go version returns an
ErrPortUnavailable error where this returns none. -/
def allocatePort (used : List Nat) (cfg : PortConfig) : Option Nat :=
  allocScan (excludedPort cfg (detectUsedPortsInRange used cfg.range))
    cfg.range.start cfg.range.stop

/-- pkg/types PortResolutionInfo; Strategy and Reason carry no decision. -/
structure PortResolutionInfo where
  resolvedPort : Nat
deriving DecidableEq

/-- pkg/types ConflictType restricted to the two constants the detectors
produce. -/
inductive ConflictType where
  | system
  | compose
deriving DecidableEq

/-- pkg/types PortConflictInfo (Description dropped). -/
structure PortConflictInfo where
  service : String
  serviceName : String
  port : Nat
  protocol : String
  type : ConflictType
  resolution : Option PortResolutionInfo
deriving DecidableEq

/-- generator.UnifiedOverrideGeneratorImpl.resolvePortConflicts, one conflict a
step.  allocated is the run's list of already assigned ports; per conflict the
start is max(conflict.Port+1, Range.Start), the allocator is retried once from
Range.Start, and on double failure the conflict is left unresolved. -/
def resolvePortConflictsAux (used : List Nat) (pc : PortConfig) :
    List PortConflictInfo → List Nat → List PortConflictInfo
  | [], _ => []
  | c :: rest, allocated =>
    let startPort := if c.port + 1 < pc.range.start then pc.range.start else c.port + 1
    let cfg1 : PortConfig :=
      ⟨⟨startPort, pc.range.stop⟩, allocated ++ pc.reserved, pc.excludePrivileged⟩
    match allocatePort used cfg1 with
    | some p =>
      { c with resolution := some ⟨p⟩ } ::
        resolvePortConflictsAux used pc rest (allocated ++ [p])
    | none =>
      let cfg2 : PortConfig :=
        ⟨⟨pc.range.start, pc.range.stop⟩, allocated ++ pc.reserved, pc.excludePrivileged⟩
      match allocatePort used cfg2 with
      | some p =>
        { c with resolution := some ⟨p⟩ } ::
          resolvePortConflictsAux used pc rest (allocated ++ [p])
      | none => c :: resolvePortConflictsAux used pc rest allocated

/-- resolvePortConflicts with the empty initial allocation list, as called by
UnifiedOverrideGeneratorImpl.ResolveConflicts. -/
def resolvePortConflicts (used : List Nat) (pc : PortConfig)
    (conflicts : List PortConflictInfo) : List PortConflictInfo :=
  resolvePortConflictsAux used pc conflicts []

/-- The resolved ports of a conflict list, in order. -/
def resolvedPorts (conflicts : List PortConflictInfo) : List Nat :=
  conflicts.filterMap (fun c => c.resolution.map (·.resolvedPort))

/-- pkg/types ServiceNetworkConfig reduced to its content: a service's
attachment (network name, static IPv4 address string, "" when absent). -/
structure Service where
  name : String
  ports : List PortMapping
  networks : List (String × String)
deriving DecidableEq

/-- A system-port conflict record as built by the detectors. -/
def mkSystemConflict (svc : String) (m : PortMapping) : PortConflictInfo :=
  ⟨svc, svc, m.host, m.protocol, .system, none⟩

/-- An intra-manifest (Compose) duplicate-port conflict record. -/
def mkComposeConflict (svc : String) (m : PortMapping) : PortConflictInfo :=
  ⟨svc, svc, m.host, m.protocol, .compose, none⟩

/-- The inner loop of scanner.UnifiedConflictDetectorImpl.DetectPortConflicts
over one service's port list.  seen is the composePortsMap: it records a host
port once its first claimant is processed; the stored service name only feeds
the Description string and is dropped.  A binding whose host port is 0 is
skipped; a port found in the system set yields a system conflict (and is not
recorded); otherwise a port already in seen yields a compose conflict, and a
fresh port is recorded. -/
def uDetectSvcPorts (usedPorts : List Nat) (svc : String) :
    List PortMapping → List Nat → List PortConflictInfo × List Nat
  | [], seen => ([], seen)
  | m :: ms, seen =>
    if m.host = 0 then uDetectSvcPorts usedPorts svc ms seen
    else if usedPorts.contains m.host then
      let r := uDetectSvcPorts usedPorts svc ms seen
      (mkSystemConflict svc m :: r.1, r.2)
    else if seen.contains m.host then
      let r := uDetectSvcPorts usedPorts svc ms seen
      (mkComposeConflict svc m :: r.1, r.2)
    else uDetectSvcPorts usedPorts svc ms (seen ++ [m.host])

/-- DetectPortConflicts of the unified detector, over the services in map
iteration order, threading composePortsMap through the services. -/
def uDetectPortsAux (usedPorts : List Nat) :
    List Service → List Nat → List PortConflictInfo
  | [], _ => []
  | svc :: rest, seen =>
    let r := uDetectSvcPorts usedPorts svc.name svc.ports seen
    r.1 ++ uDetectPortsAux usedPorts rest r.2

/-- scanner.UnifiedConflictDetectorImpl.DetectPortConflicts. -/
def unifiedDetectPortConflicts (usedPorts : List Nat) (services : List Service) :
    List PortConflictInfo :=
  uDetectPortsAux usedPorts services []

/-- All (service name, binding) pairs of a manifest in iteration order. -/
def allBindings (services : List Service) : List (String × PortMapping) :=
  services.flatMap (fun s => s.ports.map (fun m => (s.name, m)))

/-- Specification wording of unified port-conflict detection: binding number j
is flagged as a system conflict when its non-zero host port is in the system
set, and as an intra-manifest conflict when some earlier-processed binding
(of any service, the same one included) claims the same host port which is
not in the system set; the first claimant is never flagged. -/
def specPortConflicts (usedPorts : List Nat) (services : List Service) :
    List PortConflictInfo :=
  let bs := allBindings services
  bs.enum.flatMap (fun jb =>
    let m := jb.2.2
    if m.host = 0 then []
    else if usedPorts.contains m.host then [mkSystemConflict jb.2.1 m]
    else if (bs.take jb.1).any (fun b => b.2.host == m.host) then
      [mkComposeConflict jb.2.1 m]
    else [])

/-- The legacy detector resolver.ConflictDetectorImpl.DetectPortConflicts over
one service's ports: unlike the unified detector the system check and the
intra-manifest check are two independent ifs, so one binding can emit both
conflicts, and the first claimant of a port is recorded in composePortsMap
even when the port is system-used. -/
def legacyDetectSvcPorts (usedPorts : List Nat) (svc : String) :
    List PortMapping → List Nat → List PortConflictInfo × List Nat
  | [], seen => ([], seen)
  | m :: ms, seen =>
    if m.host = 0 then legacyDetectSvcPorts usedPorts svc ms seen
    else
      let sys : List PortConflictInfo :=
        if usedPorts.contains m.host then [mkSystemConflict svc m] else []
      if seen.contains m.host then
        let r := legacyDetectSvcPorts usedPorts svc ms seen
        (sys ++ [mkComposeConflict svc m] ++ r.1, r.2)
      else
        let r := legacyDetectSvcPorts usedPorts svc ms (seen ++ [m.host])
        (sys ++ r.1, r.2)

/-- resolver.ConflictDetectorImpl.DetectPortConflicts (the legacy detector);
it produces types.Conflict values, embedded here with the same record type as
the unified detector's types.PortConflictInfo, whose fields coincide on
everything the verified logic reads. -/
def legacyDetectPortsAux (usedPorts : List Nat) :
    List Service → List Nat → List PortConflictInfo
  | [], _ => []
  | svc :: rest, seen =>
    let r := legacyDetectSvcPorts usedPorts svc.name svc.ports seen
    r.1 ++ legacyDetectPortsAux usedPorts rest r.2

/-- Legacy DetectPortConflicts with an empty initial composePortsMap. -/
def legacyDetectPortConflicts (usedPorts : List Nat) (services : List Service) :
    List PortConflictInfo :=
  legacyDetectPortsAux usedPorts services []

/-- pkg/types IPAMConfig (Gateway never read). -/
structure IPAMConfig where
  subnet : String
deriving DecidableEq

/-- A manifest network as the unified detector reads it: its map key and its
IPAM.Config list (pkg/types Network; Driver and Labels never read). -/
structure Network where
  name : String
  ipamConfig : List IPAMConfig
deriving DecidableEq

/-- scanner.NetworkInfo: an existing Docker network as reported by the
network probe. -/
structure NetworkInfo where
  name : String
  subnets : List String
deriving DecidableEq

/-- pkg/types NetworkConflictType. -/
inductive NetworkConflictType where
  | subnet
  | name
deriving DecidableEq

/-- pkg/types NetworkResolutionInfo (Reason dropped). -/
structure NetworkResolutionInfo where
  resolvedSubnet : String
  serviceIPs : List (String × String)
deriving DecidableEq

/-- pkg/types NetworkConflictInfo (Description, ConflictingSubnet and
ConflictingNetwork feed no decision and are dropped). -/
structure NetworkConflictInfo where
  networkName : String
  conflictType : NetworkConflictType
  originalSubnet : String
  resolution : Option NetworkResolutionInfo
  serviceIPs : List (String × String)
deriving DecidableEq

/-- UnifiedConflictDetectorImpl.getServiceNetworkIPs: the static IPv4 of every
service attached to networkName with a non-empty address. -/
def getServiceNetworkIPs (services : List Service) (networkName : String) :
    List (String × String) :=
  services.filterMap (fun s =>
    match s.networks.lookup networkName with
    | some ip => if ip ≠ "" then some (s.name, ip) else none
    | none => none)

/-- scanner.UnifiedConflictDetectorImpl.DetectNetworkConflicts.  Only networks
whose IPAM.Config is non-empty with a non-empty first subnet are examined; the
name check and the subnet check are independent, both against the probe output
only (processed manifest networks are not added to the used sets). -/
def unifiedDetectNetworkConflicts (dockerNets : List NetworkInfo)
    (projectName : String) (networks : List Network) (services : List Service) :
    List NetworkConflictInfo :=
  let usedSubnets := dockerNets.flatMap (·.subnets)
  let usedNetworkNames := dockerNets.map (·.name)
  let projectPre := if projectName = "" then "" else projectName ++ "_"
  networks.flatMap (fun net =>
    match net.ipamConfig with
    | [] => []
    | ipam0 :: _ =>
      if ipam0.subnet = "" then []
      else
        let actualNetworkName := projectPre ++ net.name
        (if usedNetworkNames.contains actualNetworkName then
          [⟨net.name, .name, ipam0.subnet, none, []⟩]
        else []) ++
        (if usedSubnets.contains ipam0.subnet then
          [⟨net.name, .subnet, ipam0.subnet, none,
            getServiceNetworkIPs services net.name⟩]
        else []))

/-- The conflict record types.NetworkConflict of the legacy detector
resolver.NetworkConflictDetectorImpl (Description dropped; the None constant
only appears before a conflict is appended, so it never reaches the output). -/
structure NetworkConflict where
  networkName : String
  actualName : String
  originalSubnet : String
  conflictType : NetworkConflictType
deriving DecidableEq

/-- An existing Docker network as the legacy detector consumes it (a name and
a single subnet string, "" when the network has none). -/
structure DockerNetwork where
  name : String
  subnet : String
deriving DecidableEq

/-- resolver.NetworkConflictDetectorImpl.DetectNetworkConflicts, one manifest
network (map key, declared subnet — the only field of types.NetworkConfig the
detector reads) a step: a declared subnet found in usedSubnets yields a subnet
conflict, otherwise an actual name projectName_networkName found in
usedNetworkNames yields a name conflict; afterwards the network's non-empty
subnet and its actual name are appended to the used sets. -/
def detect006Aux (projectName : String) :
    List (String × String) → List String → List String → List NetworkConflict
  | [], _, _ => []
  | (name, subnet) :: rest, usedSubnets, usedNames =>
    let actual := projectName ++ "_" ++ name
    (if subnet ≠ "" ∧ usedSubnets.contains subnet then
      [⟨name, actual, subnet, .subnet⟩]
    else if usedNames.contains actual then
      [⟨name, actual, subnet, .name⟩]
    else []) ++
    detect006Aux projectName rest
      (if subnet ≠ "" then usedSubnets ++ [subnet] else usedSubnets)
      (usedNames ++ [actual])

/-- Legacy DetectNetworkConflicts: the used sets are seeded from the probe
output (non-empty subnets and all names) before the manifest networks are
walked. -/
def detectNetworkConflicts006 (dockerNets : List DockerNetwork)
    (projectName : String) (nets : List (String × String)) :
    List NetworkConflict :=
  detect006Aux projectName nets
    ((dockerNets.filter (fun n => n.subnet ≠ "")).map (·.subnet))
    (dockerNets.map (·.name))

/-- Specification wording of legacy network-conflict detection, seeded with
arbitrary initial used sets: network number j is checked against the seeds
together with the networks before it in the manifest (their non-empty
declared subnets, and their actual names). -/
def spec006Aux (projectName : String) (nets : List (String × String))
    (S0 N0 : List String) : List NetworkConflict :=
  nets.enum.flatMap (fun jn =>
    let name := jn.2.1
    let subnet := jn.2.2
    let before := nets.take jn.1
    let usedSubnets := S0 ++ (before.filter (fun p => p.2 ≠ "")).map (·.2)
    let usedNames := N0 ++ before.map (fun p => projectName ++ "_" ++ p.1)
    let actual := projectName ++ "_" ++ name
    if subnet ≠ "" ∧ usedSubnets.contains subnet then
      [⟨name, actual, subnet, .subnet⟩]
    else if usedNames.contains actual then
      [⟨name, actual, subnet, .name⟩]
    else [])

/-- Specification wording of legacy network-conflict detection: the seeds are
the probe output's non-empty subnets and its network names. -/
def specNetworkConflicts006 (dockerNets : List DockerNetwork)
    (projectName : String) (nets : List (String × String)) :
    List NetworkConflict :=
  spec006Aux projectName nets
    ((dockerNets.filter (fun n => n.subnet ≠ "")).map (·.subnet))
    (dockerNets.map (·.name))

/-- The subnet string of the first band of allocateNewSubnet. -/
def subnet10 (i : Nat) : String := "10." ++ toString i ++ ".0.0/24"

/-- The subnet string of the second band of allocateNewSubnet. -/
def subnet192 (i : Nat) : String := "192.168." ++ toString i ++ ".0/24"

/-- The subnet string of the third band of allocateNewSubnet. -/
def subnet172 (i : Nat) : String := "172." ++ toString i ++ ".0.0/24"

/-- First loop of UnifiedOverrideGeneratorImpl.allocateNewSubnet (for i := 20;
i <= 255; i++): the first 10.i.0.0/24 not in used. -/
def scan10 (used : List String) : Option String :=
  ((List.range' 20 236).find? (fun i => !used.contains (subnet10 i))).map subnet10

/-- Second loop of allocateNewSubnet (for i := 100; i <= 255; i++): the first
192.168.i.0/24 not in used. -/
def scan192 (used : List String) : Option String :=
  ((List.range' 100 156).find? (fun i => !used.contains (subnet192 i))).map subnet192

/-- Third loop of allocateNewSubnet (for i := 30; i <= 255; i++, with the —
unreachable at this start — continue over the Docker default range 17..29
kept): the first 172.i.0.0/24 not in used. -/
def scan172 (used : List String) : Option String :=
  ((List.range' 30 226).find? (fun i =>
    !(decide (17 ≤ i) && decide (i ≤ 29)) && !used.contains (subnet172 i))).map subnet172

/-- generator.UnifiedOverrideGeneratorImpl.allocateNewSubnet: the three
priority bands in order; "" when every band is exhausted. -/
def allocateNewSubnet (used : List String) : String :=
  match scan10 used with
  | some s => s
  | none =>
    match scan192 used with
    | some s => s
    | none =>
      match scan172 used with
      | some s => s
      | none => ""

/-- Splitting a character list at every occurrence of a separator, the
behaviour of Go strings.Split (and of String.splitOn) on one-character
separators: adjacent separators and edge separators produce empty pieces. -/
def splitChars (c : Char) : List Char → List (List Char)
  | [] => [[]]
  | x :: xs =>
    let r := splitChars c xs
    if x = c then [] :: r
    else
      match r with
      | [] => [[x]]
      | y :: ys => (x :: y) :: ys

/-- strings.Split on a one-character separator. -/
def splitStr (c : Char) (s : String) : List String :=
  (splitChars c s.data).map String.mk

/-- generator.UnifiedOverrideGeneratorImpl.remapIPAddressesToNewSubnet: the
string-level remap used on the unified path.  It splits the old IP and the new
subnet on dots and keeps only the last octet of the old IP; entries whose IP
does not split into four parts are dropped, and no containment check of any
kind is made.  (The Go function also drops entries whose new subnet does not
split into four parts; the subnet is a parameter here, shared by all entries.)
The oldSubnet parameter is received and never read, exactly as in the Go
function. -/
def remapIPsUnified (_oldSubnet newSubnet : String)
    (serviceIPs : List (String × String)) : List (String × String) :=
  let newParts := splitStr '.' (((splitStr '/' newSubnet).headD ""))
  serviceIPs.filterMap (fun sip =>
    match splitStr '.' sip.2, newParts with
    | [_, _, _, p3], [n0, n1, n2, _] =>
      some (sip.1, n0 ++ "." ++ n1 ++ "." ++ n2 ++ "." ++ p3)
    | _, _ => none)

/-- generator.UnifiedOverrideGeneratorImpl.resolveNetworkConflicts: usedSubnets
starts empty — the probe's existing subnets are never passed in — and each
allocated subnet is recorded before the next conflict is processed.  A failed
allocation leaves the conflict unresolved. -/
def resolveNetworkConflictsAux :
    List NetworkConflictInfo → List String → List NetworkConflictInfo
  | [], _ => []
  | c :: rest, used =>
    let s := allocateNewSubnet used
    if s = "" then c :: resolveNetworkConflictsAux rest used
    else
      let newIPs :=
        if c.serviceIPs ≠ [] then remapIPsUnified c.originalSubnet s c.serviceIPs else []
      { c with resolution := some ⟨s, newIPs⟩ } ::
        resolveNetworkConflictsAux rest (used ++ [s])

/-- resolveNetworkConflicts with the empty initial used set, as called by
UnifiedOverrideGeneratorImpl.ResolveConflicts. -/
def resolveNetworkConflicts (conflicts : List NetworkConflictInfo) :
    List NetworkConflictInfo :=
  resolveNetworkConflictsAux conflicts []

/-- An IPv4 address as four octets, the form net.IP.To4 delivers. -/
structure IPv4 where
  a : Nat
  b : Nat
  c : Nat
  d : Nat
deriving DecidableEq

/-- The 32-bit value of an address. -/
def IPv4.toNat (ip : IPv4) : Nat :=
  ((ip.a * 256 + ip.b) * 256 + ip.c) * 256 + ip.d

/-- All four octets below 256. -/
def IPv4.Valid (ip : IPv4) : Prop :=
  ip.a < 256 ∧ ip.b < 256 ∧ ip.c < 256 ∧ ip.d < 256

instance (ip : IPv4) : Decidable ip.Valid := by
  unfold IPv4.Valid; infer_instance

/-- A parsed CIDR as net.ParseCIDR returns it: the (unmasked) address written
before the slash and the prefix length. -/
structure CIDR where
  base : IPv4
  maskLen : Nat
deriving DecidableEq

/-- net.IPNet.Contains for the network of a CIDR: the ip agrees with the base
on the maskLen leading bits, i.e. both have the same quotient by
2^(32-maskLen). -/
def CIDR.containsIP (n : CIDR) (ip : IPv4) : Bool :=
  ip.toNat / 2 ^ (32 - n.maskLen) == n.base.toNat / 2 ^ (32 - n.maskLen)

/-- One octet of the per-octet remap of
resolver.NetworkConflictResolverImpl.RemapIPAddressesToNewSubnet: the Go code
computes int offset = ip - oldBase per octet and converts newBase + offset
with byte(...), which reduces the (possibly negative) int modulo 256; over
octets below 256 that equals (newBase + 256 + ip - oldBase) % 256 in Nat. -/
def remapOctet (newBase ipOct oldBase : Nat) : Nat :=
  (newBase + 256 + ipOct - oldBase) % 256

/-- The candidate address of the per-octet remap. -/
def remapIP (oldBase newBase ip : IPv4) : IPv4 :=
  ⟨remapOctet newBase.a ip.a oldBase.a, remapOctet newBase.b ip.b oldBase.b,
   remapOctet newBase.c ip.c oldBase.c, remapOctet newBase.d ip.d oldBase.d⟩

/-- resolver.NetworkConflictResolverImpl.RemapIPAddressesToNewSubnet over
already-parsed addresses: an IP outside the old subnet is skipped, the
candidate is the per-octet remap, and a candidate outside the new subnet is
skipped; nothing fails.  (The Go function additionally skips entries whose IP
string does not parse, and errors only when a subnet string itself does not
parse — both outside this embedding, which takes parsed values.) -/
def remapIPAddressesToNewSubnet (oldSub newSub : CIDR)
    (serviceIPs : List (String × IPv4)) : List (String × IPv4) :=
  serviceIPs.filterMap (fun sip =>
    if oldSub.containsIP sip.2 then
      let cand := remapIP oldSub.base newSub.base sip.2
      if newSub.containsIP cand then some (sip.1, cand) else none
    else none)

/-- pkg/types ConflictResolution restricted to the fields the verified code
reads (OriginalPort, Strategy, Reason and Timestamp feed no decision; the
optimizer's Reason rewrite is an annotation only). -/
structure ConflictResolution where
  service : String
  serviceName : String
  conflictPort : Nat
  resolvedPort : Nat
deriving DecidableEq

/-- The ServiceName-with-Service-fallback rule applied wherever the generator
groups or reports resolutions and conflicts. -/
def effResolutionName (r : ConflictResolution) : String :=
  if r.serviceName = "" then r.service else r.serviceName

/-- Same fallback rule for conflicts, used by
UnifiedOverrideGeneratorImpl.generatePortOverrides. -/
def effConflictName (c : PortConflictInfo) : String :=
  if c.serviceName = "" then c.service else c.serviceName

/-- pkg/types ServiceOverride: the replacement port list and the per-network
static-address overrides (ServiceNetwork reduced to its IPv4Address). -/
structure ServiceOverride where
  ports : List PortMapping
  networks : List (String × String)
deriving DecidableEq

/-- pkg/types NetworkOverride reduced to what the generator writes: the
subnets of IPAM.Config. -/
structure NetworkOverride where
  ipamSubnets : List String
deriving DecidableEq

/-- Replace the value of the first entry with the given key, or append the
pair: the update/insert of a Go map assembled in iteration order. -/
def upsert {α : Type} (l : List (String × α)) (k : String) (v : α) :
    List (String × α) :=
  match l with
  | [] => [(k, v)]
  | (k0, v0) :: rest =>
    if k0 = k then (k0, v) :: rest else (k0, v0) :: upsert rest k v

/-- The inner update of OverrideGeneratorImpl.generateServiceOverride and of
generatePortOverrides: set the host of the first mapping whose host equals
oldPort to newPort (the Go loop breaks after the first hit). -/
def updateFirstMapping (oldPort newPort : Nat) :
    List PortMapping → List PortMapping
  | [] => []
  | m :: ms =>
    if m.host = oldPort then { m with host := newPort } :: ms
    else m :: updateFirstMapping oldPort newPort ms

/-- The resolution loop of generateServiceOverride: each resolution updates
the first mapping matching its ConflictPort, in resolution order on the
already-updated list. -/
def applyResolutions (ports : List PortMapping) (rs : List ConflictResolution) :
    List PortMapping :=
  rs.foldl (fun acc r => updateFirstMapping r.conflictPort r.resolvedPort acc) ports

/-- generator.OverrideGeneratorImpl.GenerateOverride: an override entry is
built for every service of the original config whose port list is non-empty —
with or without resolutions for it — carrying its full port list with the
grouped resolutions applied.  (generateServiceOverride cannot fail here: the
service was taken from the config it looks the name up in.) -/
def generateOverride (services : List Service) (rs : List ConflictResolution) :
    List (String × ServiceOverride) :=
  services.filterMap (fun svc =>
    if svc.ports ≠ [] then
      some (svc.name,
        ⟨applyResolutions svc.ports (rs.filter (fun r => effResolutionName r = svc.name)), []⟩)
    else none)

/-- The per-conflict update loop of
UnifiedOverrideGeneratorImpl.generatePortOverrides: only conflicts carrying a
resolution touch the port list, each updating the first mapping whose host
equals the conflict's port. -/
def applyConflictResolutions (ports : List PortMapping)
    (cs : List PortConflictInfo) : List PortMapping :=
  cs.foldl (fun acc c =>
    match c.resolution with
    | some r => updateFirstMapping c.port r.resolvedPort acc
    | none => acc) ports

/-- First-occurrence deduplication with an accumulator of keys already kept. -/
def dedupKeysAux : List String → List String → List String
  | [], _ => []
  | x :: xs, seen =>
    if seen.contains x then dedupKeysAux xs seen
    else x :: dedupKeysAux xs (seen ++ [x])

/-- The distinct keys of a list in first-occurrence order.  The Go code groups
conflicts into a map and iterates it in unspecified order; first-occurrence
order is one admissible iteration order, and the properties proved below only
use membership, which every order shares. -/
def dedupKeys (l : List String) : List String :=
  dedupKeysAux l []

/-- UnifiedOverrideGeneratorImpl.generatePortOverrides: conflicts are grouped
by (fallback-corrected) service name; every group whose service exists in the
config yields an override entry — whether or not any of its conflicts was
resolved — holding the service's ports with the resolved conflicts applied. -/
def generatePortOverrides (services : List Service)
    (portConflicts : List PortConflictInfo) : List (String × ServiceOverride) :=
  (dedupKeys (portConflicts.map effConflictName)).filterMap (fun n =>
    match services.find? (fun s => s.name = n) with
    | some svc =>
      some (n, ⟨applyConflictResolutions svc.ports
        (portConflicts.filter (fun c => effConflictName c = n)), []⟩)
    | none => none)

/-- The per-service update inside generateNetworkOverrides: the service's
current override (a fresh empty one when absent) with the remapped static
address upserted under the conflicting network's name. -/
def remapServiceEntry (networkName : String)
    (svcs : List (String × ServiceOverride)) (sip : String × String) :
    ServiceOverride :=
  let cur := (svcs.lookup sip.1).getD ⟨[], []⟩
  { cur with networks := upsert cur.networks networkName sip.2 }

/-- UnifiedOverrideGeneratorImpl.generateNetworkOverrides: every conflict with
a resolution writes a network override with the resolved subnet, and adds (or
completes) a service override with the remapped static address for every
entry of the resolution's ServiceIPs. -/
def generateNetworkOverridesAux :
    List NetworkConflictInfo →
    List (String × ServiceOverride) × List (String × NetworkOverride) →
    List (String × ServiceOverride) × List (String × NetworkOverride)
  | [], acc => acc
  | c :: rest, acc =>
    match c.resolution with
    | none => generateNetworkOverridesAux rest acc
    | some r =>
      let nets := upsert acc.2 c.networkName ⟨[r.resolvedSubnet]⟩
      let svcs := r.serviceIPs.foldl
        (fun svcs sip => upsert svcs sip.1 (remapServiceEntry c.networkName svcs sip))
        acc.1
      generateNetworkOverridesAux rest (svcs, nets)

/-- UnifiedOverrideGeneratorImpl.GenerateFromConflicts, reduced to the
services and networks maps of the produced override (metadata aside): the
port phase populates the services, the network phase adds the networks and
the remapped static addresses. -/
def generateFromConflicts (services : List Service)
    (portConflicts : List PortConflictInfo)
    (networkConflicts : List NetworkConflictInfo) :
    List (String × ServiceOverride) × List (String × NetworkOverride) :=
  generateNetworkOverridesAux networkConflicts
    (generatePortOverrides services portConflicts, [])

/-- pkg/types OverrideConfig reduced to the fields ValidateOverride reads: the
services map and Metadata.Resolutions.  (Version is only logged.) -/
structure OverrideConfig where
  services : List (String × ServiceOverride)
  resolutions : List ConflictResolution
deriving DecidableEq

/-- The port loop of OverrideGeneratorImpl.validateServiceOverride: walks the
mappings once, failing on a duplicate non-zero host port (portMap records the
non-zero hosts seen so far), on a host port above 65535 (the Go lower-bound
check host < 0 is vacuous over naturals) or on a container port outside
1..65535. -/
def validatePortMappings : List PortMapping → List Nat → Bool
  | [], _ => true
  | m :: ms, seenHosts =>
    if m.host ≠ 0 ∧ seenHosts.contains m.host then false
    else if 65535 < m.host then false
    else if m.container < 1 ∨ 65535 < m.container then false
    else validatePortMappings ms
      (if m.host ≠ 0 then seenHosts ++ [m.host] else seenHosts)

/-- OverrideGeneratorImpl.validateServiceOverride as a pass/fail value. -/
def validateServiceOverride (so : ServiceOverride) : Bool :=
  validatePortMappings so.ports []

/-- OverrideGeneratorImpl.validateResolutionUniqueness: walks the resolutions
once, failing when a resolved port repeats (whatever the services involved). -/
def validateResolutionUniqueness : List ConflictResolution → List Nat → Bool
  | [], _ => true
  | r :: rs, seen =>
    if seen.contains r.resolvedPort then false
    else validateResolutionUniqueness rs (seen ++ [r.resolvedPort])

/-- OverrideGeneratorImpl.ValidateOverride as a pass/fail value: an empty
services map returns success at once (skipping the resolution-uniqueness
check); otherwise every service override must pass and the resolved ports
must be pairwise distinct. -/
def validateOverride (o : OverrideConfig) : Bool :=
  if o.services.isEmpty then true
  else
    o.services.all (fun s => validateServiceOverride s.2) &&
      validateResolutionUniqueness o.resolutions []

/-- Insertion step of the embedded ascending sort by resolved port. -/
def insertByResolved (r : ConflictResolution) :
    List ConflictResolution → List ConflictResolution
  | [] => [r]
  | x :: xs =>
    if r.resolvedPort ≤ x.resolvedPort then r :: x :: xs
    else x :: insertByResolved r xs

/-- The sort.Slice call of PortResolutionAnalyzerImpl.OptimizeResolutions,
embedded as an insertion sort: ascending in resolved port (the Go sort is
unstable, so ties carry no order guarantee there either). -/
def sortByResolved (rs : List ConflictResolution) : List ConflictResolution :=
  rs.foldr insertByResolved []

/-- The inner while loop of OptimizeResolutions: the port is incremented
while it is marked used, and the loop breaks as soon as the incremented value
exceeds 65535.  Unrolled, the result is the first free port of [p, 65535] and
65536 when that whole interval is used; a start beyond 65535 is returned as
is when free and incremented once (triggering the break) when used. -/
def bumpPort (used : List Nat) (p : Nat) : Nat :=
  if 65535 < p then (if used.contains p then p + 1 else p)
  else
    match (List.range' p (65536 - p)).find? (fun q => !used.contains q) with
    | some q => q
    | none => 65536

/-- The main loop of PortResolutionAnalyzerImpl.OptimizeResolutions: a
resolution whose (possibly bumped) port stays within 65535 is kept and its
port marked used; otherwise it is dropped from the output. -/
def optimizeAux : List ConflictResolution → List Nat → List ConflictResolution
  | [], _ => []
  | r :: rest, used =>
    let p := bumpPort used r.resolvedPort
    if p ≤ 65535 then
      { r with resolvedPort := p } :: optimizeAux rest (used ++ [p])
    else optimizeAux rest used

/-- PortResolutionAnalyzerImpl.OptimizeResolutions. -/
def optimizeResolutions (rs : List ConflictResolution) : List ConflictResolution :=
  optimizeAux (sortByResolved rs) []

/-- The exclusion union of the auto-increment specification, amended with the
privileged ports: system-used ∪ reserved ∪ already-resolved-this-run, plus
1..1023 when ExcludePrivileged is set. -/
def claimExcluded (used reserved allocated : List Nat) (exclPriv : Bool)
    (p : Nat) : Bool :=
  used.contains p || reserved.contains p || allocated.contains p ||
    (exclPriv && decide (1 ≤ p) && decide (p ≤ 1023))

/-- The first port of the ascending interval [lo, hi] on which excl is false. -/
def firstFreePort (excl : Nat → Bool) (lo hi : Nat) : Option Nat :=
  (List.range' lo (hi + 1 - lo)).find? (fun p => !excl p)

/-- Specification wording of auto-increment resolution (privileged ports
included in the union): each conflict in input order takes the first port of
[max(port+1, start), end] outside the union, restarting once from start, and
is skipped when both searches fail; each success joins the run's exclusion
list before the next conflict. -/
def specResolveAux (used : List Nat) (pc : PortConfig) :
    List PortConflictInfo → List Nat → List PortConflictInfo
  | [], _ => []
  | c :: rest, allocated =>
    let lo := max (c.port + 1) pc.range.start
    let excl := claimExcluded used pc.reserved allocated pc.excludePrivileged
    match firstFreePort excl lo pc.range.stop with
    | some p =>
      { c with resolution := some ⟨p⟩ } :: specResolveAux used pc rest (allocated ++ [p])
    | none =>
      match firstFreePort excl pc.range.start pc.range.stop with
      | some p =>
        { c with resolution := some ⟨p⟩ } :: specResolveAux used pc rest (allocated ++ [p])
      | none => c :: specResolveAux used pc rest allocated

/-- The specification resolver started with an empty run exclusion list. -/
def specResolvePortConflicts (used : List Nat) (pc : PortConfig)
    (conflicts : List PortConflictInfo) : List PortConflictInfo :=
  specResolveAux used pc conflicts []

/-- The non-zero host ports of a mapping list, in order. -/
def nzHosts (ps : List PortMapping) : List Nat :=
  ps.filterMap (fun m => if m.host = 0 then none else some m.host)

/-- The unified port-conflict walk over the flattened (service, binding)
pairs: the nested service/binding loops of DetectPortConflicts visit exactly
this sequence with one shared composePortsMap. -/
def goBindings (used : List Nat) :
    List (String × PortMapping) → List Nat → List PortConflictInfo
  | [], _ => []
  | (s, m) :: bs, seen =>
    if m.host = 0 then goBindings used bs seen
    else if used.contains m.host then
      mkSystemConflict s m :: goBindings used bs seen
    else if seen.contains m.host then
      mkComposeConflict s m :: goBindings used bs seen
    else goBindings used bs (seen ++ [m.host])

/-- The indexed specification of unified port-conflict detection,
parameterized by a predicate for the ports recorded before the walk: binding
number j draws a system conflict when its non-zero host port is system-used,
an intra-manifest conflict when the port was recorded before the walk or some
earlier binding claims it, and nothing otherwise. -/
def specGoP (used : List Nat) (bs : List (String × PortMapping))
    (P : Nat → Bool) : List PortConflictInfo :=
  bs.enum.flatMap (fun jb =>
    let s := jb.2.1
    let m := jb.2.2
    if m.host = 0 then []
    else if used.contains m.host then [mkSystemConflict s m]
    else if P m.host || (bs.take jb.1).any (fun b => b.2.host == m.host) then
      [mkComposeConflict s m]
    else [])

/-- The non-zero host ports claimed by a binding sequence, in order. -/
def nzBindingHosts (bs : List (String × PortMapping)) : List Nat :=
  bs.filterMap (fun b => if b.2.host = 0 then none else some b.2.host)

/- Claim theorems and their supporting lemmas follow. -/

/-- Claim C10: the unified network-conflict detector emits no conflict of any
kind for a manifest network whose IPAM configuration list is empty or whose
first IPAM entry has an empty subnet string — in particular no name conflict,
even when the computed actual name collides with an existing network name.
Every emitted conflict names a manifest network with a non-empty first
subnet. -/
theorem unified_detector_ignores_subnetless_networks
    (dockerNets : List NetworkInfo) (projectName : String)
    (networks : List Network) (services : List Service) :
    (∀ c ∈ unifiedDetectNetworkConflicts dockerNets projectName networks services,
      ∃ net ∈ networks, c.networkName = net.name ∧
        ∃ ipam0 rest, net.ipamConfig = ipam0 :: rest ∧ ipam0.subnet ≠ "") ∧
    ((networks.map (·.name)).Nodup →
      ∀ net ∈ networks, (∀ i0 ∈ net.ipamConfig.head?, i0.subnet = "") →
        ∀ c ∈ unifiedDetectNetworkConflicts dockerNets projectName networks services,
          c.networkName ≠ net.name) := by
  have key : ∀ c ∈ unifiedDetectNetworkConflicts dockerNets projectName networks services,
      ∃ net ∈ networks, c.networkName = net.name ∧
        ∃ ipam0 rest, net.ipamConfig = ipam0 :: rest ∧ ipam0.subnet ≠ "" := by
    intro c hc
    unfold unifiedDetectNetworkConflicts at hc
    simp only [List.mem_flatMap] at hc
    obtain ⟨net, hnet, hin⟩ := hc
    refine ⟨net, hnet, ?_⟩
    rcases hipam : net.ipamConfig with _ | ⟨ipam0, rest⟩
    · rw [hipam] at hin; simp at hin
    · rw [hipam] at hin
      by_cases hsub : ipam0.subnet = ""
      · simp [hsub] at hin
      · simp only [hsub, if_false, List.mem_append] at hin
        constructor
        · rcases hin with hin | hin <;>
            [skip; skip] <;>
            · split at hin <;> simp_all
        · exact ⟨ipam0, rest, rfl, hsub⟩
  refine ⟨key, ?_⟩
  intro hnodup net hnet hblank c hc hname
  obtain ⟨net2, hnet2, hcn, ipam0, rest, hcfg, hsub⟩ := key c hc
  have : net2 = net := by
    have := List.inj_on_of_nodup_map hnodup hnet2 hnet
    exact this (by rw [← hcn, hname])
  subst this
  have : ipam0.subnet = "" := by
    apply hblank
    rw [hcfg]; simp
  exact hsub this

/-- Witness for C10: a manifest network named default with an empty IPAM list
whose actual name proj_default collides with an existing network draws no
conflict, while a sibling network with a declared colliding subnet does. -/
theorem unified_detector_ignores_subnetless_networks_witness :
    ((([⟨"default", []⟩, ⟨"app", [⟨"10.0.0.0/24"⟩]⟩] : List Network).map (·.name)).Nodup ∧
      (∃ c ∈ unifiedDetectNetworkConflicts [⟨"proj_default", ["10.0.0.0/24"]⟩] "proj"
        [⟨"default", []⟩, ⟨"app", [⟨"10.0.0.0/24"⟩]⟩] [], c.networkName = "app")) ∧
    (∀ c ∈ unifiedDetectNetworkConflicts [⟨"proj_default", ["10.0.0.0/24"]⟩] "proj"
        [⟨"default", []⟩, ⟨"app", [⟨"10.0.0.0/24"⟩]⟩] [],
      c.networkName ≠ "default") := by
  refine ⟨⟨by decide, by decide⟩, ?_⟩
  intro c hc
  exact (unified_detector_ignores_subnetless_networks
      [⟨"proj_default", ["10.0.0.0/24"]⟩] "proj"
      [⟨"default", []⟩, ⟨"app", [⟨"10.0.0.0/24"⟩]⟩] []).2
    (by decide) ⟨"default", []⟩ (by decide) (by decide) c hc

/-- The inner bump loop leaves the used set whenever it stays within range:
a result at most 65535 is not a member of used. -/
theorem bumpPort_not_used (used : List Nat) (p : Nat) :
    bumpPort used p ≤ 65535 → bumpPort used p ∉ used := by
  intro hle hmem
  rw [bumpPort] at hle hmem
  by_cases hp : 65535 < p
  · rw [if_pos hp] at hle hmem
    by_cases h : used.contains p
    · rw [if_pos h] at hle; omega
    · rw [if_neg h] at hle; omega
  · rw [if_neg hp] at hle hmem
    rcases hfind : (List.range' p (65536 - p)).find? (fun q => !used.contains q) with _ | q
    · simp only [hfind] at hle; omega
    · simp only [hfind] at hle hmem
      have := List.find?_some hfind
      simp only [Bool.not_eq_true'] at this
      exact absurd hmem (by simpa using this)

/-- Invariant of the optimizer loop: every kept resolution carries a port at
most 65535 that avoids the incoming used set, and the kept ports are pairwise
distinct. -/
theorem optimizeAux_invariant (rs : List ConflictResolution) : ∀ used,
    (∀ r ∈ optimizeAux rs used,
      r.resolvedPort ≤ 65535 ∧ r.resolvedPort ∉ used) ∧
    ((optimizeAux rs used).map (·.resolvedPort)).Nodup := by
  induction rs with
  | nil => intro used; simp [optimizeAux]
  | cons r rest ih =>
    intro used
    rw [optimizeAux]
    by_cases h : bumpPort used r.resolvedPort ≤ 65535
    · simp only [h, if_pos]
      have hfree : bumpPort used r.resolvedPort ∉ used :=
        bumpPort_not_used used r.resolvedPort h
      constructor
      · intro x hx
        rcases List.mem_cons.mp hx with hx | hx
        · subst hx; exact ⟨h, hfree⟩
        · have := (ih (used ++ [bumpPort used r.resolvedPort])).1 x hx
          refine ⟨this.1, fun hm => this.2 ?_⟩
          exact List.mem_append_left _ hm
      · simp only [List.map_cons, List.nodup_cons]
        constructor
        · intro hmem
          simp only [List.mem_map] at hmem
          obtain ⟨x, hx, hpx⟩ := hmem
          have := (ih (used ++ [bumpPort used r.resolvedPort])).1 x hx
          exact this.2 (by rw [hpx]; simp)
        · exact (ih (used ++ [bumpPort used r.resolvedPort])).2
    · simp only [h, if_neg, if_false]
      exact ih used

/-- Claim C9: when bumping a duplicate resolved port pushes it past 65535 the
optimizer silently drops that resolution, so some inputs yield a strictly
shorter output; every kept resolution has a resolved port at most 65535,
unique within the output. -/
theorem optimizer_boundary_drop_and_uniqueness :
    (∃ rs : List ConflictResolution,
      (optimizeResolutions rs).length < rs.length) ∧
    ∀ rs : List ConflictResolution,
      (∀ r ∈ optimizeResolutions rs, r.resolvedPort ≤ 65535) ∧
      ((optimizeResolutions rs).map (·.resolvedPort)).Nodup := by
  constructor
  · exact ⟨[⟨"a", "a", 3000, 65535⟩, ⟨"b", "b", 3001, 65535⟩], by decide⟩
  · intro rs
    have := optimizeAux_invariant (sortByResolved rs) []
    exact ⟨fun r hr => ((this.1 r hr).1), this.2⟩

/-- Witness for C9: on two resolutions both at port 65535 the optimizer keeps
only the first, within range and duplicate-free. -/
theorem optimizer_boundary_drop_and_uniqueness_witness :
    (∀ r ∈ optimizeResolutions
        [⟨"a", "a", 3000, 65535⟩, ⟨"b", "b", 3001, 65535⟩],
      r.resolvedPort ≤ 65535) ∧
    ((optimizeResolutions
        [⟨"a", "a", 3000, 65535⟩, ⟨"b", "b", 3001, 65535⟩]).map
      (·.resolvedPort)).Nodup := by
  have h := optimizer_boundary_drop_and_uniqueness.2
    [⟨"a", "a", 3000, 65535⟩, ⟨"b", "b", 3001, 65535⟩]
  exact ⟨h.1, h.2⟩

/-- Claim C2 (failing input): an existing Docker network occupies
10.20.0.0/24 and the manifest network app-network declares the same subnet.
The unified detector emits a subnet conflict for it, but the unified resolver
starts its usedSubnets empty — the probe's existing subnets are never passed
in — so the first band candidate 10.20.0.0/24 is allocated: the resolved
subnet is a member of the existing-network subnet set and even equals the
very subnet whose collision was being resolved. -/
theorem resolved_subnet_collides_with_existing_network :
    (unifiedDetectNetworkConflicts [⟨"other", ["10.20.0.0/24"]⟩] "proj"
        [⟨"app-network", [⟨"10.20.0.0/24"⟩]⟩] []).map (·.conflictType) =
      [.subnet] ∧
    (resolveNetworkConflicts
        (unifiedDetectNetworkConflicts [⟨"other", ["10.20.0.0/24"]⟩] "proj"
          [⟨"app-network", [⟨"10.20.0.0/24"⟩]⟩] [])).map
      (fun c => c.resolution.map (·.resolvedSubnet)) = [some "10.20.0.0/24"] ∧
    "10.20.0.0/24" ∈
      ([⟨"other", ["10.20.0.0/24"]⟩] : List NetworkInfo).flatMap (·.subnets) := by
  decide

/-- Counterexample to C3 as stated: one single service claiming host port
3000 twice is flagged with an intra-manifest conflict on the second binding,
although no other service in the manifest claims that port. -/
theorem intra_service_duplicate_flagged :
    unifiedDetectPortConflicts []
        [⟨"web", [⟨3000, 80, "tcp"⟩, ⟨3000, 81, "tcp"⟩], []⟩] =
      [⟨"web", "web", 3000, "tcp", .compose, none⟩] ∧
    ∀ s ∈ ([⟨"web", [⟨3000, 80, "tcp"⟩, ⟨3000, 81, "tcp"⟩], []⟩] : List Service),
      s.name = "web" := by
  decide

/-- Counterexample to C4 as stated: the same services map presented in the
two iteration orders Go may choose yields different conflict lists — the
flagged claimant of the tied port 3000 differs — so identical inputs do not
guarantee identical outputs across runs. -/
theorem detection_depends_on_iteration_order :
    ([⟨"api", [⟨3000, 81, "tcp"⟩], []⟩, ⟨"web", [⟨3000, 80, "tcp"⟩], []⟩] :
        List Service).Perm
      [⟨"web", [⟨3000, 80, "tcp"⟩], []⟩, ⟨"api", [⟨3000, 81, "tcp"⟩], []⟩] ∧
    unifiedDetectPortConflicts []
        [⟨"api", [⟨3000, 81, "tcp"⟩], []⟩, ⟨"web", [⟨3000, 80, "tcp"⟩], []⟩] ≠
      unifiedDetectPortConflicts []
        [⟨"web", [⟨3000, 80, "tcp"⟩], []⟩, ⟨"api", [⟨3000, 81, "tcp"⟩], []⟩] := by
  exact ⟨List.Perm.swap _ _ _, by decide⟩

/-- A base-256 digit is at most 255. -/
theorem div_mod_256_le (x j : Nat) : x / 2 ^ j % 256 ≤ 255 := by
  have := Nat.mod_lt (x / 2 ^ j) (show 0 < 256 by norm_num)
  omega

/-- Adding a value below 2^k to a multiple of 2^k never carries across any
base-256 digit: each digit of the sum is the digit-wise sum, itself below
256.  Cases: the digit lies entirely above the boundary, entirely below it,
or straddles it. -/
theorem digit_add_split (k j x y : Nat) (hx : x % 2 ^ k = 0) (hy : y < 2 ^ k) :
    (x + y) / 2 ^ j % 256 = x / 2 ^ j % 256 + y / 2 ^ j % 256 ∧
      x / 2 ^ j % 256 + y / 2 ^ j % 256 ≤ 255 := by
  have hJpos : 0 < 2 ^ j := Nat.pos_pow_of_pos j (by norm_num)
  have hKpos : 0 < 2 ^ k := Nat.pos_pow_of_pos k (by norm_num)
  rcases le_or_lt k j with hkj | hjk
  · -- k ≤ j : y contributes nothing at or above digit j
    have hyj : y / 2 ^ j = 0 :=
      Nat.div_eq_of_lt (lt_of_lt_of_le hy (Nat.pow_le_pow_right (by norm_num) hkj))
    have hKJ : (2 : Nat) ^ k ∣ 2 ^ j := pow_dvd_pow 2 hkj
    have hxk : (2 : Nat) ^ k ∣ x := Nat.dvd_of_mod_eq_zero hx
    have hrk : (2 : Nat) ^ k ∣ x % 2 ^ j := by
      have h1 : (2 : Nat) ^ k ∣ 2 ^ j * (x / 2 ^ j) := hKJ.mul_right _
      have h2 : x % 2 ^ j = x - 2 ^ j * (x / 2 ^ j) := by
        have := Nat.div_add_mod x (2 ^ j)
        omega
      rw [h2]
      exact Nat.dvd_sub' hxk h1
    have hry : x % 2 ^ j + y < 2 ^ j := by
      rcases hrk with ⟨t, ht⟩
      rcases hKJ with ⟨E, hE⟩
      have hrlt : x % 2 ^ j < 2 ^ j := Nat.mod_lt _ hJpos
      rw [ht, hE] at hrlt ⊢
      have htE : t < E := Nat.lt_of_mul_lt_mul_left hrlt
      calc 2 ^ k * t + y < 2 ^ k * t + 2 ^ k := by omega
        _ = 2 ^ k * (t + 1) := by ring
        _ ≤ 2 ^ k * E := Nat.mul_le_mul_left _ htE
    have hdiv : (x + y) / 2 ^ j = x / 2 ^ j := by
      conv_lhs => rw [← Nat.div_add_mod x (2 ^ j)]
      rw [Nat.add_assoc, Nat.mul_add_div hJpos, Nat.div_eq_of_lt hry, Nat.add_zero]
    rw [hdiv, hyj]
    have := div_mod_256_le x j
    omega
  · rcases le_or_lt (j + 8) k with hjk8 | hjk8
    · -- j + 8 ≤ k : x contributes nothing at digit j
      have hxk : (2 : Nat) ^ (j + 8) ∣ x :=
        dvd_trans (pow_dvd_pow 2 hjk8) (Nat.dvd_of_mod_eq_zero hx)
      rcases hxk with ⟨t, ht⟩
      have hxt : x = 2 ^ j * (256 * t) := by
        rw [ht, pow_add]
        ring
      have hd1 : x / 2 ^ j = 256 * t := by
        rw [hxt, Nat.mul_div_cancel_left _ hJpos]
      have hd2 : (x + y) / 2 ^ j = 256 * t + y / 2 ^ j := by
        rw [hxt, Nat.mul_add_div hJpos]
      rw [hd1, hd2, Nat.mul_add_mod, Nat.mul_mod_right]
      have := div_mod_256_le y j
      omega
    · -- j < k < j + 8 : the straddling digit
      have hKJ : (2 : Nat) ^ j ∣ 2 ^ k := pow_dvd_pow 2 (le_of_lt hjk)
      have hxk : (2 : Nat) ^ k ∣ x := Nat.dvd_of_mod_eq_zero hx
      have hxj : (2 : Nat) ^ j ∣ x := dvd_trans hKJ hxk
      rcases hxj with ⟨u, hu⟩
      have hud : (2 : Nat) ^ (k - j) ∣ u := by
        rcases hxk with ⟨s, hs⟩
        have hks : 2 ^ j * u = 2 ^ j * (2 ^ (k - j) * s) := by
          rw [← hu, hs, ← Nat.mul_assoc, ← pow_add]
          congr 2
          omega
        exact ⟨s, Nat.eq_of_mul_eq_mul_left hJpos hks⟩
      have hDdvd : (2 : Nat) ^ (k - j) ∣ 256 := by
        have : (256 : Nat) = 2 ^ 8 := by norm_num
        rw [this]
        exact pow_dvd_pow 2 (by omega)
      have hDle : (2 : Nat) ^ (k - j) ≤ 256 := Nat.le_of_dvd (by norm_num) hDdvd
      have hDpos : 0 < (2 : Nat) ^ (k - j) := Nat.pos_pow_of_pos _ (by norm_num)
      have hyu : y / 2 ^ j < 2 ^ (k - j) := by
        rw [Nat.div_lt_iff_lt_mul hJpos, ← pow_add]
        have : k - j + j = k := by omega
        rw [this]
        exact hy
      have hrd : (2 : Nat) ^ (k - j) ∣ u % 256 := by
        have h1 : (2 : Nat) ^ (k - j) ∣ 256 * (u / 256) := hDdvd.mul_right _
        have h2 : u % 256 = u - 256 * (u / 256) := by
          have := Nat.div_add_mod u 256
          omega
        rw [h2]
        exact Nat.dvd_sub' hud h1
      have hrb : u % 256 + y / 2 ^ j ≤ 255 := by
        rcases hrd with ⟨t, ht⟩
        have hrlt : u % 256 < 256 := Nat.mod_lt _ (by norm_num)
        rcases hDdvd with ⟨E, hE⟩
        rw [ht]
        rw [ht, hE] at hrlt
        have htE : t < E := Nat.lt_of_mul_lt_mul_left hrlt
        have h1 : 2 ^ (k - j) * (t + 1) ≤ 2 ^ (k - j) * E := Nat.mul_le_mul_left _ htE
        have h2 : 2 ^ (k - j) * (t + 1) = 2 ^ (k - j) * t + 2 ^ (k - j) := by ring
        omega
      have hdivs : (x + y) / 2 ^ j = u + y / 2 ^ j := by
        rw [hu, Nat.mul_add_div hJpos]
      have hdx : x / 2 ^ j = u := by
        rw [hu, Nat.mul_div_cancel_left _ hJpos]
      rw [hdivs, hdx]
      have hyd : y / 2 ^ j % 256 = y / 2 ^ j :=
        Nat.mod_eq_of_lt (lt_of_lt_of_le hyu hDle)
      have hsum : (u + y / 2 ^ j) % 256 = u % 256 + y / 2 ^ j := by
        conv_lhs => rw [← Nat.div_add_mod u 256]
        rw [Nat.add_assoc, Nat.mul_add_mod]
        exact Nat.mod_eq_of_lt (by omega)
      rw [hsum, hyd]
      exact ⟨rfl, hrb⟩

/-- For canonical equal-mask bases, an address in the old subnet decomposes
digit-wise into base plus host offset, the new base accepts the offset
without carries, and adding the offset to the new base stays in the new
subnet. -/
theorem remap_digits (k O Nn A : Nat)
    (hO : O % 2 ^ k = 0) (hN : Nn % 2 ^ k = 0)
    (hcont : A / 2 ^ k = O / 2 ^ k) :
    O ≤ A ∧ A - O < 2 ^ k ∧
    (∀ j, A / 2 ^ j % 256 = O / 2 ^ j % 256 + (A - O) / 2 ^ j % 256) ∧
    (∀ j, Nn / 2 ^ j % 256 + (A - O) / 2 ^ j % 256 ≤ 255) ∧
    (Nn + (A - O)) / 2 ^ k = Nn / 2 ^ k := by
  have hKpos : 0 < 2 ^ k := Nat.pos_pow_of_pos k (by norm_num)
  have hdmA := Nat.div_add_mod A (2 ^ k)
  have hdmO := Nat.div_add_mod O (2 ^ k)
  have hmltA := Nat.mod_lt A hKpos
  rw [← hcont] at hdmO
  have hOA : O ≤ A := by omega
  have hAO : A - O = A % 2 ^ k := by omega
  have hHlt : A - O < 2 ^ k := by omega
  have hAOH : A = O + (A - O) := by omega
  refine ⟨hOA, hHlt, ?_, ?_, ?_⟩
  · intro j
    conv_lhs => rw [hAOH]
    exact (digit_add_split k j O (A - O) hO hHlt).1
  · intro j
    exact (digit_add_split k j Nn (A - O) hN hHlt).2
  · have hdmN := Nat.div_add_mod Nn (2 ^ k)
    have hNn : Nn = 2 ^ k * (Nn / 2 ^ k) := by omega
    conv_lhs => rw [hNn]
    rw [Nat.mul_add_div hKpos, Nat.div_eq_of_lt hHlt, Nat.add_zero]

/-- The most significant octet of a four-octet value. -/
theorem digit24 (x1 x2 x3 x4 : Nat) (h1 : x1 < 256) (h2 : x2 < 256)
    (h3 : x3 < 256) (h4 : x4 < 256) :
    (((x1*256+x2)*256+x3)*256+x4) / 16777216 % 256 = x1 := by omega

/-- The second octet of a four-octet value. -/
theorem digit16 (x1 x2 x3 x4 : Nat) (h2 : x2 < 256)
    (h3 : x3 < 256) (h4 : x4 < 256) :
    (((x1*256+x2)*256+x3)*256+x4) / 65536 % 256 = x2 := by omega

/-- The third octet of a four-octet value. -/
theorem digit8 (x1 x2 x3 x4 : Nat) (h3 : x3 < 256) (h4 : x4 < 256) :
    (((x1*256+x2)*256+x3)*256+x4) / 256 % 256 = x3 := by omega

/-- The least significant octet of a four-octet value. -/
theorem digit0 (x1 x2 x3 x4 : Nat) (h4 : x4 < 256) :
    (((x1*256+x2)*256+x3)*256+x4) % 256 = x4 := by omega

/-- A 32-bit value is rebuilt from its four octets. -/
theorem digit_reconstruct (x : Nat) (h : x < 4294967296) :
    x = ((x / 16777216 % 256 * 256 + x / 65536 % 256) * 256 + x / 256 % 256) * 256
      + x % 256 := by omega

/-- One remapped octet under the no-carry conditions. -/
theorem remap_octet_eq (n o a h : Nat) (ha : a = o + h) (hb : n + h ≤ 255) :
    (n + 256 + a - o) % 256 = n + h := by omega

/-- The per-octet remap of a contained address between equal-length
canonical subnets equals new base plus host offset, and stays in the new
subnet, octet form. -/
theorem remap_equal_masks_octets
    (o1 o2 o3 o4 n1 n2 n3 n4 a1 a2 a3 a4 m : Nat) (hm : m ≤ 32)
    (hv1 : o1 < 256) (hv2 : o2 < 256) (hv3 : o3 < 256) (hv4 : o4 < 256)
    (hv5 : n1 < 256) (hv6 : n2 < 256) (hv7 : n3 < 256) (hv8 : n4 < 256)
    (hv9 : a1 < 256) (hv10 : a2 < 256) (hv11 : a3 < 256) (hv12 : a4 < 256)
    (hoc : (((o1*256+o2)*256+o3)*256+o4) % 2 ^ (32 - m) = 0)
    (hnc : (((n1*256+n2)*256+n3)*256+n4) % 2 ^ (32 - m) = 0)
    (hcont : (((a1*256+a2)*256+a3)*256+a4) / 2 ^ (32 - m) =
      (((o1*256+o2)*256+o3)*256+o4) / 2 ^ (32 - m)) :
    ((((n1 + 256 + a1 - o1) % 256)*256+((n2 + 256 + a2 - o2) % 256))*256+
        ((n3 + 256 + a3 - o3) % 256))*256+((n4 + 256 + a4 - o4) % 256)
      = (((n1*256+n2)*256+n3)*256+n4) +
        ((((a1*256+a2)*256+a3)*256+a4) - (((o1*256+o2)*256+o3)*256+o4)) ∧
    (((((n1 + 256 + a1 - o1) % 256)*256+((n2 + 256 + a2 - o2) % 256))*256+
        ((n3 + 256 + a3 - o3) % 256))*256+((n4 + 256 + a4 - o4) % 256)) / 2 ^ (32 - m)
      = (((n1*256+n2)*256+n3)*256+n4) / 2 ^ (32 - m) := by
  obtain ⟨hOA, hH, hd, hbd, hfin⟩ := remap_digits (32 - m)
    (((o1*256+o2)*256+o3)*256+o4) (((n1*256+n2)*256+n3)*256+n4)
    (((a1*256+a2)*256+a3)*256+a4) hoc hnc hcont
  have hd24 := hd 24
  have hd16 := hd 16
  have hd8 := hd 8
  have hd0 := hd 0
  have hb24 := hbd 24
  have hb16 := hbd 16
  have hb8 := hbd 8
  have hb0 := hbd 0
  clear hd hbd
  norm_num at hd24 hd16 hd8 hd0 hb24 hb16 hb8 hb0
  rw [digit24 a1 a2 a3 a4 hv9 hv10 hv11 hv12,
    digit24 o1 o2 o3 o4 hv1 hv2 hv3 hv4] at hd24
  rw [digit16 a1 a2 a3 a4 hv10 hv11 hv12,
    digit16 o1 o2 o3 o4 hv2 hv3 hv4] at hd16
  rw [digit8 a1 a2 a3 a4 hv11 hv12, digit8 o1 o2 o3 o4 hv3 hv4] at hd8
  rw [digit0 a1 a2 a3 a4 hv12, digit0 o1 o2 o3 o4 hv4] at hd0
  rw [digit24 n1 n2 n3 n4 hv5 hv6 hv7 hv8] at hb24
  rw [digit16 n1 n2 n3 n4 hv6 hv7 hv8] at hb16
  rw [digit8 n1 n2 n3 n4 hv7 hv8] at hb8
  rw [digit0 n1 n2 n3 n4 hv8] at hb0
  have c1 := remap_octet_eq n1 o1 a1 _ hd24 hb24
  have c2 := remap_octet_eq n2 o2 a2 _ hd16 hb16
  have c3 := remap_octet_eq n3 o3 a3 _ hd8 hb8
  have c4 := remap_octet_eq n4 o4 a4 _ hd0 hb0
  have hkle : (2:Nat) ^ (32 - m) ≤ 2 ^ 32 := Nat.pow_le_pow_right (by norm_num) (by omega)
  have hHH : (((a1*256+a2)*256+a3)*256+a4) - (((o1*256+o2)*256+o3)*256+o4)
      < 4294967296 := lt_of_lt_of_le hH (le_trans hkle (by norm_num))
  have hrec := digit_reconstruct _ hHH
  norm_num at hrec
  have hmain : ((((n1 + 256 + a1 - o1) % 256)*256+((n2 + 256 + a2 - o2) % 256))*256+
        ((n3 + 256 + a3 - o3) % 256))*256+((n4 + 256 + a4 - o4) % 256)
      = (((n1*256+n2)*256+n3)*256+n4) +
        ((((a1*256+a2)*256+a3)*256+a4) - (((o1*256+o2)*256+o3)*256+o4)) := by
    rw [c1, c2, c3, c4]
    conv_rhs => rw [hrec]
    ring
  refine ⟨hmain, ?_⟩
  rw [hmain]
  exact hfin

/-- Counterexample to C5 as stated: the unified generator's remap never
checks the old subnet.  The address 99.99.99.99 lies outside 10.0.0.0/24, so
the claim requires it to be skipped, yet the function emits 10.20.0.99 for
it (keeping only the last octet). -/
theorem unified_remap_ignores_old_subnet :
    remapIPsUnified "10.0.0.0/24" "10.20.0.0/24" [("db", "99.99.99.99")] =
      [("db", "10.20.0.99")] ∧
    CIDR.containsIP ⟨⟨10, 0, 0, 0⟩, 24⟩ ⟨99, 99, 99, 99⟩ = false := by
  decide

/-- Counterexample to C6 as stated: with an empty services map
ValidateOverride returns success immediately, skipping the resolution
uniqueness check, although the metadata carries two different services'
resolutions sharing resolved port 8080. -/
theorem validate_override_empty_services_bypass :
    validateOverride ⟨[], [⟨"a", "a", 3000, 8080⟩, ⟨"b", "b", 3001, 8080⟩]⟩ = true ∧
    (⟨"a", "a", 3000, 8080⟩ : ConflictResolution).resolvedPort =
      (⟨"b", "b", 3001, 8080⟩ : ConflictResolution).resolvedPort ∧
    (⟨"a", "a", 3000, 8080⟩ : ConflictResolution).service ≠
      (⟨"b", "b", 3001, 8080⟩ : ConflictResolution).service := by
  decide

/-- Counterexample to C7 as stated: a service with ports but no resolution at
all (the resolution list is empty, no IP was remapped) still receives an
override entry from GenerateOverride. -/
theorem generate_override_includes_unresolved_service :
    generateOverride [⟨"web", [⟨3000, 80, "tcp"⟩], []⟩] [] =
      [("web", ⟨[⟨3000, 80, "tcp"⟩], []⟩)] := by
  decide


/-- A zero-host mapping contributes nothing to the non-zero hosts. -/
theorem nzHosts_cons_zero {m : PortMapping} (ms : List PortMapping)
    (h : m.host = 0) : nzHosts (m :: ms) = nzHosts ms := by
  simp [nzHosts, List.filterMap_cons, h]

/-- A non-zero-host mapping contributes its host first. -/
theorem nzHosts_cons_ne {m : PortMapping} (ms : List PortMapping)
    (h : m.host ≠ 0) : nzHosts (m :: ms) = m.host :: nzHosts ms := by
  simp [nzHosts, List.filterMap_cons, h]

/-- The port walk of validateServiceOverride succeeds exactly when every
mapping is in range, the non-zero host ports are pairwise distinct, and none
of them was seen before the walk started. -/
theorem validatePortMappings_iff (ps : List PortMapping) : ∀ seen : List Nat,
    validatePortMappings ps seen = true ↔
      ((∀ m ∈ ps, m.host ≤ 65535 ∧ 1 ≤ m.container ∧ m.container ≤ 65535) ∧
        (nzHosts ps).Nodup ∧ ∀ h ∈ nzHosts ps, h ∉ seen) := by
  induction ps with
  | nil => intro seen; simp [validatePortMappings, nzHosts]
  | cons m ms ih =>
    intro seen
    rw [validatePortMappings]
    by_cases h1 : m.host ≠ 0 ∧ seen.contains m.host
    · rw [if_pos h1]
      simp only [Bool.false_eq_true, false_iff]
      rintro ⟨-, -, hrest⟩
      have hmem : m.host ∈ seen := by simpa using h1.2
      have hin : m.host ∈ nzHosts (m :: ms) := by
        rw [nzHosts_cons_ne ms h1.1]; simp
      exact absurd hmem (hrest m.host hin)
    · rw [if_neg h1]
      by_cases h2 : 65535 < m.host
      · rw [if_pos h2]
        simp only [Bool.false_eq_true, false_iff]
        rintro ⟨hall, -, -⟩
        have := hall m (by simp)
        omega
      · rw [if_neg h2]
        by_cases h3 : m.container < 1 ∨ 65535 < m.container
        · rw [if_pos h3]
          simp only [Bool.false_eq_true, false_iff]
          rintro ⟨hall, -, -⟩
          have := hall m (by simp)
          omega
        · rw [if_neg h3]
          by_cases h0 : m.host = 0
          · rw [if_neg (by simp [h0]), ih seen, nzHosts_cons_zero ms h0]
            constructor
            · rintro ⟨ha, hb, hc⟩
              refine ⟨?_, hb, hc⟩
              intro x hx
              rcases List.mem_cons.mp hx with rfl | hx
              · exact ⟨by omega, by omega, by omega⟩
              · exact ha x hx
            · rintro ⟨ha, hb, hc⟩
              exact ⟨fun x hx => ha x (List.mem_cons_of_mem m hx), hb, hc⟩
          · rw [if_pos (by simp [h0]), ih (seen ++ [m.host]),
              nzHosts_cons_ne ms h0]
            have hns : m.host ∉ seen := by
              intro hm
              exact h1 ⟨h0, by simpa using hm⟩
            constructor
            · rintro ⟨ha, hb, hc⟩
              refine ⟨?_, ?_, ?_⟩
              · intro x hx
                rcases List.mem_cons.mp hx with rfl | hx
                · exact ⟨by omega, by omega, by omega⟩
                · exact ha x hx
              · refine List.nodup_cons.mpr ⟨?_, hb⟩
                intro hm
                have := hc m.host hm
                simp at this
              · intro h hx
                rcases List.mem_cons.mp hx with rfl | hx
                · exact hns
                · intro hm
                  exact hc h hx (by simp [hm])
            · rintro ⟨ha, hb, hc⟩
              refine ⟨fun x hx => ha x (List.mem_cons_of_mem m hx),
                (List.nodup_cons.mp hb).2, ?_⟩
              intro h hx
              simp only [List.mem_append, List.mem_singleton, not_or]
              refine ⟨hc h (List.mem_cons_of_mem _ hx), ?_⟩
              intro heq
              exact (List.nodup_cons.mp hb).1 (heq ▸ hx)

/-- The resolution walk of validateResolutionUniqueness succeeds exactly when
the resolved ports are pairwise distinct and disjoint from the seeds. -/
theorem validateResolutionUniqueness_iff (rs : List ConflictResolution) :
    ∀ seen : List Nat,
    validateResolutionUniqueness rs seen = true ↔
      ((rs.map (·.resolvedPort)).Nodup ∧
        ∀ r ∈ rs, r.resolvedPort ∉ seen) := by
  induction rs with
  | nil => intro seen; simp [validateResolutionUniqueness]
  | cons r rs ih =>
    intro seen
    rw [validateResolutionUniqueness]
    by_cases h : seen.contains r.resolvedPort
    · rw [if_pos h]
      simp only [Bool.false_eq_true, false_iff]
      rintro ⟨-, hall⟩
      exact absurd (by simpa using h) (hall r (by simp))
    · rw [if_neg h]
      rw [ih (seen ++ [r.resolvedPort])]
      simp only [List.map_cons, List.nodup_cons]
      constructor
      · rintro ⟨hnd, hall⟩
        refine ⟨⟨?_, hnd⟩, ?_⟩
        · intro hm
          simp only [List.mem_map] at hm
          obtain ⟨x, hx, hpx⟩ := hm
          have := hall x hx
          simp [hpx] at this
        · intro x hx
          rcases List.mem_cons.mp hx with rfl | hx
          · intro hm; exact h (by simpa using hm)
          · intro hm
            exact (hall x hx) (by simp [hm])
      · rintro ⟨⟨hhead, hnd⟩, hall⟩
        refine ⟨hnd, ?_⟩
        intro x hx
        simp only [List.mem_append, List.mem_singleton, not_or]
        refine ⟨hall x (List.mem_cons_of_mem _ hx), ?_⟩
        intro heq
        exact hhead (by
          simp only [List.mem_map]
          exact ⟨x, hx, heq⟩)

/-- Claim C6 (amended): ValidateOverride succeeds exactly when the services
map is empty — in which case even duplicate resolved ports in the metadata
pass — or every service override carries in-range ports ([0,65535] hosts,
[1,65535] containers) with pairwise distinct non-zero host ports, and the
resolved ports of all metadata resolutions (same-service duplicates included)
are pairwise distinct. -/
theorem validate_override_characterization (o : OverrideConfig) :
    validateOverride o = true ↔
      (o.services = [] ∨
        ((∀ s ∈ o.services,
            (∀ m ∈ s.2.ports,
              m.host ≤ 65535 ∧ 1 ≤ m.container ∧ m.container ≤ 65535) ∧
            (nzHosts s.2.ports).Nodup) ∧
          (o.resolutions.map (·.resolvedPort)).Nodup)) := by
  unfold validateOverride
  by_cases he : o.services.isEmpty
  · rw [if_pos he]
    simp [List.isEmpty_iff.mp he]
  · rw [if_neg he]
    have hne : ¬ o.services = [] := by simpa [List.isEmpty_iff] using he
    simp only [hne, false_or]
    rw [Bool.and_eq_true, List.all_eq_true]
    constructor
    · rintro ⟨hall, huniq⟩
      refine ⟨?_, ((validateResolutionUniqueness_iff o.resolutions []).mp huniq).1⟩
      intro s hs
      have := (validatePortMappings_iff s.2.ports []).mp (hall s hs)
      exact ⟨this.1, this.2.1⟩
    · rintro ⟨hall, huniq⟩
      refine ⟨?_, (validateResolutionUniqueness_iff o.resolutions []).mpr ⟨huniq, by simp⟩⟩
      intro s hs
      exact (validatePortMappings_iff s.2.ports []).mpr
        ⟨(hall s hs).1, (hall s hs).2, by simp⟩

/-- Counterexample to C8 as stated: two manifest networks declare the same
subnet, unknown to the probe.  The claim requires the later one to be flagged
as a subnet conflict against the earlier one, but the unified detector never
adds processed manifest networks to its used sets and emits nothing. -/
theorem unified_network_detector_misses_intra_manifest :
    unifiedDetectNetworkConflicts [] "p"
      [⟨"n1", [⟨"10.0.0.0/24"⟩]⟩, ⟨"n2", [⟨"10.0.0.0/24"⟩]⟩] [] = [] := by
  decide

/-- Witness for C6: a well-formed one-service override with one resolution
validates. -/
theorem validate_override_characterization_witness :
    validateOverride
      ⟨[("web", ⟨[⟨8080, 80, "tcp"⟩], []⟩)], [⟨"web", "web", 3000, 8080⟩]⟩ =
      true :=
  (validate_override_characterization
    ⟨[("web", ⟨[⟨8080, 80, "tcp"⟩], []⟩)], [⟨"web", "web", 3000, 8080⟩]⟩).mpr
    (by decide)

/-- Membership in the deduplicated keys is membership in the original list
minus the accumulator. -/
theorem mem_dedupKeysAux (x : String) :
    ∀ (l seen : List String),
      x ∈ dedupKeysAux l seen ↔ x ∈ l ∧ x ∉ seen := by
  intro l
  induction l with
  | nil => intro seen; simp [dedupKeysAux]
  | cons y ys ih =>
    intro seen
    rw [dedupKeysAux]
    by_cases h : seen.contains y
    · rw [if_pos h]
      rw [ih seen]
      constructor
      · rintro ⟨hx, hs⟩
        exact ⟨List.mem_cons_of_mem y hx, hs⟩
      · rintro ⟨hx, hs⟩
        rcases List.mem_cons.mp hx with rfl | hx
        · exact absurd (by simpa using h) hs
        · exact ⟨hx, hs⟩
    · rw [if_neg h]
      constructor
      · intro hx
        rcases List.mem_cons.mp hx with rfl | hx
        · exact ⟨by simp, fun hs => h (by simpa using hs)⟩
        · have := (ih (seen ++ [y])).mp hx
          simp only [List.mem_append, List.mem_singleton, not_or] at this
          exact ⟨List.mem_cons_of_mem y this.1, this.2.1⟩
      · rintro ⟨hx, hs⟩
        rcases List.mem_cons.mp hx with rfl | hx
        · exact List.mem_cons_self x _
        · by_cases hxy : x = y
          · subst hxy; exact List.mem_cons_self x _
          · refine List.mem_cons_of_mem y ((ih (seen ++ [y])).mpr ⟨hx, ?_⟩)
            simp [hs, hxy]

/-- The keys reachable after an upsert are the old keys plus the new one. -/
theorem mem_upsert_keys {α : Type} (l : List (String × α)) (k : String) (v : α)
    (x : String) :
    x ∈ (upsert l k v).map Prod.fst ↔ x ∈ l.map Prod.fst ∨ x = k := by
  induction l with
  | nil => simp [upsert]
  | cons p rest ih =>
    rw [upsert]
    by_cases h : p.1 = k
    · rw [if_pos h]
      subst h
      simp only [List.map_cons, List.mem_cons]
      tauto
    · rw [if_neg h]
      simp only [List.map_cons, List.mem_cons]
      rw [ih]
      tauto

/-- The keys reachable after the ServiceIPs fold of generateNetworkOverrides
are the old keys plus the remapped services. -/
theorem mem_foldl_upsert_keys {α : Type}
    (f : List (String × α) → String × String → α) (x : String) :
    ∀ (ips : List (String × String)) (acc : List (String × α)),
      x ∈ ((ips.foldl (fun acc sip => upsert acc sip.1 (f acc sip)) acc).map
        Prod.fst) ↔ x ∈ acc.map Prod.fst ∨ x ∈ ips.map Prod.fst := by
  intro ips
  induction ips with
  | nil => intro acc; simp
  | cons sip rest ih =>
    intro acc
    rw [List.foldl_cons, ih, mem_upsert_keys]
    simp only [List.map_cons, List.mem_cons]
    tauto

/-- The network keys produced by generateNetworkOverrides are the incoming
ones plus the names of the conflicts that carry a resolution. -/
theorem genNetworkOverrides_net_keys (x : String) :
    ∀ (ncs : List NetworkConflictInfo)
      (acc : List (String × ServiceOverride) × List (String × NetworkOverride)),
      x ∈ ((generateNetworkOverridesAux ncs acc).2.map Prod.fst) ↔
        x ∈ acc.2.map Prod.fst ∨
          ∃ c ∈ ncs, c.networkName = x ∧ c.resolution.isSome := by
  intro ncs
  induction ncs with
  | nil => intro acc; simp [generateNetworkOverridesAux]
  | cons c rest ih =>
    intro acc
    rw [generateNetworkOverridesAux]
    rcases hres : c.resolution with _ | r
    · rw [ih]
      simp only [List.mem_cons]
      constructor
      · rintro (hx | ⟨c2, hc2, hx⟩)
        · exact Or.inl hx
        · exact Or.inr ⟨c2, Or.inr hc2, hx⟩
      · rintro (hx | ⟨c2, (rfl | hc2), hx⟩)
        · exact Or.inl hx
        · rw [hres] at hx; simp at hx
        · exact Or.inr ⟨c2, hc2, hx⟩
    · rw [ih]
      simp only [mem_upsert_keys]
      constructor
      · rintro ((hx | rfl) | ⟨c2, hc2, hx⟩)
        · exact Or.inl hx
        · exact Or.inr ⟨c, List.mem_cons_self c rest, rfl, by simp [hres]⟩
        · exact Or.inr ⟨c2, List.mem_cons_of_mem c hc2, hx⟩
      · rintro (hx | ⟨c2, hc2, hx⟩)
        · exact Or.inl (Or.inl hx)
        · rcases List.mem_cons.mp hc2 with rfl | hc2
          · exact Or.inl (Or.inr hx.1.symm)
          · exact Or.inr ⟨c2, hc2, hx⟩

/-- The service keys produced by generateNetworkOverrides are the incoming
ones plus every service remapped by a resolved conflict. -/
theorem genNetworkOverrides_svc_keys (x : String) :
    ∀ (ncs : List NetworkConflictInfo)
      (acc : List (String × ServiceOverride) × List (String × NetworkOverride)),
      x ∈ ((generateNetworkOverridesAux ncs acc).1.map Prod.fst) ↔
        x ∈ acc.1.map Prod.fst ∨
          ∃ c ∈ ncs, ∃ r, c.resolution = some r ∧
            x ∈ r.serviceIPs.map Prod.fst := by
  intro ncs
  induction ncs with
  | nil => intro acc; simp [generateNetworkOverridesAux]
  | cons c rest ih =>
    intro acc
    rw [generateNetworkOverridesAux]
    rcases hres : c.resolution with _ | r
    · rw [ih]
      simp only [List.mem_cons]
      constructor
      · rintro (hx | ⟨c2, hc2, hx⟩)
        · exact Or.inl hx
        · exact Or.inr ⟨c2, Or.inr hc2, hx⟩
      · rintro (hx | ⟨c2, (rfl | hc2), hx⟩)
        · exact Or.inl hx
        · rw [hres] at hx; simp at hx
        · exact Or.inr ⟨c2, hc2, hx⟩
    · rw [ih]
      rw [mem_foldl_upsert_keys (remapServiceEntry c.networkName) x
        r.serviceIPs acc.1]
      constructor
      · rintro ((hx | hx) | ⟨c2, hc2, hr⟩)
        · exact Or.inl hx
        · exact Or.inr ⟨c, List.mem_cons_self c rest, r, hres, hx⟩
        · exact Or.inr ⟨c2, List.mem_cons_of_mem c hc2, hr⟩
      · rintro (hx | ⟨c2, hc2, r2, hr2, hx⟩)
        · exact Or.inl (Or.inl hx)
        · rcases List.mem_cons.mp hc2 with rfl | hc2
          · rw [hres] at hr2
            cases hr2
            exact Or.inl (Or.inr hx)
          · exact Or.inr ⟨c2, hc2, r2, hr2, hx⟩

/-- The service keys of generatePortOverrides: exactly the (fallback-corrected)
names of the conflicts whose service exists in the config. -/
theorem genPortOverrides_keys (services : List Service)
    (pcs : List PortConflictInfo) (x : String) :
    x ∈ (generatePortOverrides services pcs).map Prod.fst ↔
      ((∃ c ∈ pcs, effConflictName c = x) ∧
        (services.find? (fun s => s.name = x)).isSome) := by
  unfold generatePortOverrides
  constructor
  · intro hx
    simp only [List.mem_map] at hx
    obtain ⟨p, hp, hfst⟩ := hx
    simp only [List.mem_filterMap] at hp
    obtain ⟨n, hn, hmatch⟩ := hp
    rcases hfind : services.find? (fun s => s.name = n) with _ | svc
    · rw [hfind] at hmatch; simp at hmatch
    · rw [hfind] at hmatch
      simp only [Option.some.injEq] at hmatch
      have hxn : n = x := by rw [← hmatch] at hfst; simpa using hfst
      subst hxn
      have := (mem_dedupKeysAux n (pcs.map effConflictName) []).mp hn
      simp only [List.mem_map] at this
      obtain ⟨⟨c, hc, hcn⟩, -⟩ := this
      exact ⟨⟨c, hc, hcn⟩, by simp [hfind]⟩
  · rintro ⟨⟨c, hc, hcn⟩, hfind⟩
    rcases hf : services.find? (fun s => s.name = x) with _ | svc
    · rw [hf] at hfind; simp at hfind
    · simp only [List.mem_map]
      refine ⟨(x, ⟨applyConflictResolutions svc.ports
        (pcs.filter (fun c => effConflictName c = x)), []⟩), ?_, rfl⟩
      simp only [List.mem_filterMap]
      refine ⟨x, ?_, by rw [hf]⟩
      refine (mem_dedupKeysAux x (pcs.map effConflictName) []).mpr ⟨?_, by simp⟩
      simp only [List.mem_map]
      exact ⟨c, hc, hcn⟩

/-- Claim C7 (amended): GenerateOverride includes an override entry for a
service exactly when its original port list is non-empty, resolutions or not.
In the unified generator a network appears exactly when its conflict carries
a resolved subnet, and a service appears exactly when it has at least one
grouped port conflict (resolved or not) and exists in the config, or receives
a remapped static address from some resolved network conflict. -/
theorem override_document_membership (services : List Service)
    (rs : List ConflictResolution) (pcs : List PortConflictInfo)
    (ncs : List NetworkConflictInfo) (x : String) :
    (x ∈ (generateOverride services rs).map Prod.fst ↔
      ∃ svc ∈ services, svc.name = x ∧ svc.ports ≠ []) ∧
    (x ∈ ((generateFromConflicts services pcs ncs).2.map Prod.fst) ↔
      ∃ c ∈ ncs, c.networkName = x ∧ c.resolution.isSome) ∧
    (x ∈ ((generateFromConflicts services pcs ncs).1.map Prod.fst) ↔
      (((∃ c ∈ pcs, effConflictName c = x) ∧
          (services.find? (fun s => s.name = x)).isSome) ∨
        ∃ c ∈ ncs, ∃ r, c.resolution = some r ∧
          x ∈ r.serviceIPs.map Prod.fst)) := by
  refine ⟨?_, ?_, ?_⟩
  · unfold generateOverride
    constructor
    · intro hx
      simp only [List.mem_map] at hx
      obtain ⟨p, hp, hfst⟩ := hx
      simp only [List.mem_filterMap] at hp
      obtain ⟨svc, hsvc, hmatch⟩ := hp
      by_cases hne : svc.ports ≠ []
      · rw [if_pos hne] at hmatch
        simp only [Option.some.injEq] at hmatch
        refine ⟨svc, hsvc, ?_, hne⟩
        rw [← hmatch] at hfst
        simpa using hfst
      · rw [if_neg hne] at hmatch; simp at hmatch
    · rintro ⟨svc, hsvc, hname, hne⟩
      simp only [List.mem_map]
      refine ⟨(svc.name, ⟨applyResolutions svc.ports
        (rs.filter (fun r => effResolutionName r = svc.name)), []⟩), ?_, hname⟩
      simp only [List.mem_filterMap]
      exact ⟨svc, hsvc, by rw [if_pos hne]⟩
  · unfold generateFromConflicts
    rw [genNetworkOverrides_net_keys]
    simp
  · unfold generateFromConflicts
    rw [genNetworkOverrides_svc_keys]
    rw [genPortOverrides_keys]

/-- Witness for C7: a service with ports appears in the legacy override, a
resolved conflict's network appears in the unified one. -/
theorem override_document_membership_witness :
    "web" ∈ (generateOverride [⟨"web", [⟨3000, 80, "tcp"⟩], []⟩] []).map
      Prod.fst ∧
    "app-net" ∈ ((generateFromConflicts [] []
      [⟨"app-net", .subnet, "10.0.0.0/24",
        some ⟨"10.20.0.0/24", []⟩, []⟩]).2.map Prod.fst) := by
  constructor
  · exact (override_document_membership [⟨"web", [⟨3000, 80, "tcp"⟩], []⟩]
      [] [] [] "web").1.mpr (by decide)
  · exact (override_document_membership [] [] []
      [⟨"app-net", .subnet, "10.0.0.0/24", some ⟨"10.20.0.0/24", []⟩, []⟩]
      "app-net").2.1.mpr (by decide)

/-- Unfolding one network of the indexed specification: the head is checked
against the seeds alone and the tail against the seeds extended with the
head's contribution (its non-empty subnet, its actual name). -/
theorem spec006Aux_cons (P name subnet : String)
    (rest : List (String × String)) (S N : List String) :
    spec006Aux P ((name, subnet) :: rest) S N =
      (if subnet ≠ "" ∧ S.contains subnet then
        [⟨name, P ++ "_" ++ name, subnet, .subnet⟩]
      else if N.contains (P ++ "_" ++ name) then
        [⟨name, P ++ "_" ++ name, subnet, .name⟩]
      else []) ++
      spec006Aux P rest (if subnet ≠ "" then S ++ [subnet] else S)
        (N ++ [P ++ "_" ++ name]) := by
  unfold spec006Aux
  rw [List.enum_cons', List.flatMap_cons]
  congr 1
  · simp
  · rw [List.flatMap_map]
    apply List.flatMap_congr
    rintro ⟨j, n2, s2⟩ hmem
    simp only [Prod.map, id, List.take_succ_cons, List.filter_cons,
      List.map_cons]
    by_cases hsub : subnet = ""
    · subst hsub
      simp
    · rw [if_pos (show (decide ¬subnet = "") = true by simp [hsub]),
        if_pos (show ¬subnet = "" from hsub)]
      have hl : (S ++ [subnet]) ++
          ((List.take j rest).filter (fun p => p.2 ≠ "")).map (fun x => x.2) =
          S ++ subnet ::
            ((List.take j rest).filter (fun p => p.2 ≠ "")).map (fun x => x.2) := by
        simp
      rw [hl, List.map_cons, List.append_assoc, List.singleton_append]

/-- The legacy network-conflict walk equals its indexed specification for
every seeding of the used sets. -/
theorem detect006Aux_eq_spec (P : String) :
    ∀ (nets : List (String × String)) (S N : List String),
      detect006Aux P nets S N = spec006Aux P nets S N := by
  intro nets
  induction nets with
  | nil => intro S N; rfl
  | cons p rest ih =>
    intro S N
    obtain ⟨name, subnet⟩ := p
    rw [detect006Aux, spec006Aux_cons, ih]

/-- Claim C8 (amended): the legacy detector NetworkConflictDetectorImpl
behaves exactly as claimed — each manifest network with a declared subnet
found in the probe subnets or among earlier manifest networks' subnets draws
a subnet conflict, otherwise a name conflict when its actual name
projectName_networkName is among the probe names or earlier actual names, and
each processed network's non-empty subnet and actual name extend the used
sets — stated as equality with the indexed specification.  (The unified
detector does not satisfy the claim: see the counterexample.) -/
theorem legacy_network_detection_matches_spec (dockerNets : List DockerNetwork)
    (P : String) (nets : List (String × String)) :
    detectNetworkConflicts006 dockerNets P nets =
      specNetworkConflicts006 dockerNets P nets := by
  unfold detectNetworkConflicts006 specNetworkConflicts006
  exact detect006Aux_eq_spec P nets _ _


/-- One service's inner loop is the flattened walk over its own bindings. -/
theorem goBindings_svc (used : List Nat) (s : String) :
    ∀ (ports : List PortMapping) (seen : List Nat)
      (bs : List (String × PortMapping)),
      goBindings used (ports.map (fun m => (s, m)) ++ bs) seen =
        (uDetectSvcPorts used s ports seen).1 ++
          goBindings used bs (uDetectSvcPorts used s ports seen).2 := by
  intro ports
  induction ports with
  | nil => intro seen bs; rfl
  | cons m ms ih =>
    intro seen bs
    rw [List.map_cons, List.cons_append, goBindings, uDetectSvcPorts]
    by_cases h0 : m.host = 0
    · rw [if_pos h0, if_pos h0, ih]
    · rw [if_neg h0, if_neg h0]
      by_cases hu : used.contains m.host
      · rw [if_pos hu, if_pos hu, ih]
        rfl
      · rw [if_neg hu, if_neg hu]
        by_cases hs : seen.contains m.host
        · rw [if_pos hs, if_pos hs, ih]
          rfl
        · rw [if_neg hs, if_neg hs, ih]

/-- The two-level detector loop equals the flattened walk. -/
theorem uDetectPortsAux_eq_goBindings (used : List Nat) :
    ∀ (services : List Service) (seen : List Nat),
      uDetectPortsAux used services seen =
        goBindings used (allBindings services) seen := by
  intro services
  induction services with
  | nil => intro seen; rfl
  | cons svc rest ih =>
    intro seen
    rw [uDetectPortsAux]
    have : allBindings (svc :: rest) =
        svc.ports.map (fun m => (svc.name, m)) ++ allBindings rest := by
      simp [allBindings]
    rw [this, goBindings_svc, ih]


/-- Unfolding one binding of the indexed specification. -/
theorem specGoP_cons (used : List Nat) (s : String) (m : PortMapping)
    (bs : List (String × PortMapping)) (P : Nat → Bool) :
    specGoP used ((s, m) :: bs) P =
      (if m.host = 0 then []
      else if used.contains m.host then [mkSystemConflict s m]
      else if P m.host then [mkComposeConflict s m] else []) ++
      specGoP used bs (fun h => P h || (m.host == h)) := by
  unfold specGoP
  rw [List.enum_cons', List.flatMap_cons]
  congr 1
  · simp
  · rw [List.flatMap_map]
    apply List.flatMap_congr
    rintro ⟨j, s2, m2⟩ hmem
    simp only [Prod.map, id, List.take_succ_cons, List.any_cons, Bool.or_assoc]

/-- The indexed specification only reads the predicate on non-zero ports
outside the system set. -/
theorem specGoP_congr (used : List Nat) (bs : List (String × PortMapping))
    (P Q : Nat → Bool)
    (h : ∀ x, x ≠ 0 → used.contains x = false → P x = Q x) :
    specGoP used bs P = specGoP used bs Q := by
  unfold specGoP
  apply List.flatMap_congr
  rintro ⟨j, s2, m2⟩ hmem
  by_cases h0 : m2.host = 0
  · rw [if_pos h0, if_pos h0]
  · rw [if_neg h0, if_neg h0]
    by_cases hu : used.contains m2.host
    · rw [if_pos hu, if_pos hu]
    · rw [if_neg hu, if_neg hu,
        h m2.host h0 (by simpa using hu)]

/-- The flattened walk equals the indexed specification whose predicate is
membership in the incoming composePortsMap. -/
theorem goBindings_eq_specGoP (used : List Nat) :
    ∀ (bs : List (String × PortMapping)) (seen : List Nat),
      goBindings used bs seen =
        specGoP used bs (fun h => seen.contains h) := by
  intro bs
  induction bs with
  | nil => intro seen; rfl
  | cons b rest ih =>
    intro seen
    obtain ⟨s, m⟩ := b
    rw [goBindings, specGoP_cons]
    by_cases h0 : m.host = 0
    · rw [if_pos h0, if_pos h0, List.nil_append, ih]
      apply specGoP_congr
      intro x hx _
      have : (m.host == x) = false := by
        simp [h0]; omega
      rw [this, Bool.or_false]
    · rw [if_neg h0, if_neg h0]
      by_cases hu : used.contains m.host
      · rw [if_pos hu, if_pos hu, List.singleton_append, ih]
        congr 1
        apply specGoP_congr
        intro x hx hxu
        have : (m.host == x) = false := by
          apply beq_false_of_ne
          intro heq
          rw [heq, hxu] at hu
          exact absurd hu (by simp)
        rw [this, Bool.or_false]
      · rw [if_neg hu, if_neg hu]
        by_cases hs : seen.contains m.host
        · rw [if_pos hs, if_pos hs, List.singleton_append, ih]
          congr 1
          apply specGoP_congr
          intro x hx hxu
          by_cases hxm : m.host = x
          · rw [← hxm, hs]
            simp
          · rw [beq_false_of_ne hxm, Bool.or_false]
        · rw [if_neg hs, if_neg hs, List.nil_append, ih]
          apply specGoP_congr
          intro x hx hxu
          by_cases hxm : x = m.host <;>
            by_cases hxs : x ∈ seen <;>
            simp [hxm, hxs, Ne.symm]

/-- Claim C3 (amended): the unified detector behaves exactly as claimed with
one correction — a binding is flagged as an intra-manifest conflict when any
earlier-processed binding claims the same non-system host port, whether that
binding belongs to another service or to the same one.  A binding with host
port 0 yields nothing, a binding whose port is system-used yields only a
host-system conflict, the first claimant of a port is never flagged, every
later claimant is.  (The legacy ConflictDetectorImpl runs the two checks
independently and can emit both conflicts for one binding: see the reason
trail; the counterexample refutes the claim's another-service wording on the
unified detector itself.) -/
theorem unified_port_detection_matches_spec (used : List Nat)
    (services : List Service) :
    unifiedDetectPortConflicts used services =
      specPortConflicts used services := by
  unfold unifiedDetectPortConflicts specPortConflicts
  rw [uDetectPortsAux_eq_goBindings, goBindings_eq_specGoP]
  have h1 : specGoP used (allBindings services) (fun h => List.contains [] h) =
      specGoP used (allBindings services) (fun _ => false) := by
    apply specGoP_congr
    intro x hx hxu
    simp
  rw [h1]
  unfold specGoP
  apply List.flatMap_congr
  rintro ⟨j, s2, m2⟩ hmem
  simp only [Bool.false_or]


/-- When the non-zero host ports are pairwise distinct and none was recorded
before the walk, the walk emits system conflicts only, one per binding whose
port is system-used — a pointwise function of the bindings. -/
theorem goBindings_of_nodup (used : List Nat) :
    ∀ (bs : List (String × PortMapping)) (seen : List Nat),
      (nzBindingHosts bs).Nodup →
      (∀ h ∈ nzBindingHosts bs, seen.contains h = false) →
      goBindings used bs seen =
        bs.flatMap (fun b =>
          if b.2.host = 0 then []
          else if used.contains b.2.host then [mkSystemConflict b.1 b.2]
          else []) := by
  intro bs
  induction bs with
  | nil => intro seen _ _; rfl
  | cons b rest ih =>
    intro seen hnd hseen
    obtain ⟨s, m⟩ := b
    rw [goBindings, List.flatMap_cons]
    by_cases h0 : m.host = 0
    · rw [if_pos h0, if_pos h0, List.nil_append]
      have hnz : nzBindingHosts ((s, m) :: rest) = nzBindingHosts rest := by
        simp [nzBindingHosts, List.filterMap_cons, h0]
      rw [hnz] at hnd hseen
      exact ih seen hnd hseen
    · have hnz : nzBindingHosts ((s, m) :: rest) =
          m.host :: nzBindingHosts rest := by
        simp [nzBindingHosts, List.filterMap_cons, h0]
      rw [hnz] at hnd hseen
      rw [if_neg h0, if_neg h0]
      by_cases hu : used.contains m.host
      · rw [if_pos hu, if_pos hu, List.singleton_append]
        congr 1
        exact ih seen (List.nodup_cons.mp hnd).2
          (fun h hh => hseen h (List.mem_cons_of_mem _ hh))
      · rw [if_neg hu, if_neg hu]
        have hms : seen.contains m.host = false :=
          hseen m.host (List.mem_cons_self _ _)
        rw [if_neg (by simpa using hms), List.nil_append]
        apply ih
        · exact (List.nodup_cons.mp hnd).2
        · intro h hh
          have h1 : seen.contains h = false :=
            hseen h (List.mem_cons_of_mem _ hh)
          have h2 : h ≠ m.host := by
            intro heq
            exact (List.nodup_cons.mp hnd).1 (heq ▸ hh)
          by_cases hx : h ∈ seen
          · simp [hx] at h1
          · simp [hx, h2]

/-- Claim C4 (amended): for a fixed iteration order the engine is a pure
function of its inputs, but the source iterates an unordered Go map, and
detection output can differ between admissible orders when several bindings
tie on a host port.  What survives reordering: when the manifest's non-zero
host ports are pairwise distinct, permuting the services only permutes the
detected conflicts.  (The counterexample shows two orders of the same map
with materially different outputs.) -/
theorem detection_stable_without_ties (used : List Nat)
    (l1 l2 : List Service) (hperm : l1.Perm l2)
    (hnd : (nzBindingHosts (allBindings l1)).Nodup) :
    (unifiedDetectPortConflicts used l1).Perm
      (unifiedDetectPortConflicts used l2) := by
  have hb : (allBindings l1).Perm (allBindings l2) :=
    List.Perm.flatMap_right _ hperm
  have hnd2 : (nzBindingHosts (allBindings l2)).Nodup :=
    (List.Perm.filterMap _ hb).nodup hnd
  unfold unifiedDetectPortConflicts
  rw [uDetectPortsAux_eq_goBindings, uDetectPortsAux_eq_goBindings,
    goBindings_of_nodup used (allBindings l1) [] hnd (by simp),
    goBindings_of_nodup used (allBindings l2) [] hnd2 (by simp)]
  exact List.Perm.flatMap_right _ hb

/-- Witness for C4: two orders of a two-service map with distinct ports give
permuted conflict lists. -/
theorem detection_stable_without_ties_witness :
    (unifiedDetectPortConflicts [3000]
      [⟨"web", [⟨3000, 80, "tcp"⟩], []⟩, ⟨"api", [⟨5000, 81, "tcp"⟩], []⟩]).Perm
      (unifiedDetectPortConflicts [3000]
        [⟨"api", [⟨5000, 81, "tcp"⟩], []⟩, ⟨"web", [⟨3000, 80, "tcp"⟩], []⟩]) :=
  detection_stable_without_ties [3000]
    [⟨"web", [⟨3000, 80, "tcp"⟩], []⟩, ⟨"api", [⟨5000, 81, "tcp"⟩], []⟩]
    [⟨"api", [⟨5000, 81, "tcp"⟩], []⟩, ⟨"web", [⟨3000, 80, "tcp"⟩], []⟩]
    (List.Perm.swap _ _ _) (by decide)

/-- find? only depends on the predicate's values on the list. -/
theorem find?_congrL {α : Type} (l : List α) (p q : α → Bool)
    (h : ∀ a ∈ l, p a = q a) : l.find? p = l.find? q := by
  induction l with
  | nil => rfl
  | cons a l ih =>
    simp only [List.find?_cons]
    rw [h a (List.mem_cons_self a l)]
    cases hq : q a
    · exact ih (fun b hb => h b (List.mem_cons_of_mem a hb))
    · rfl

/-- Filtering the probe to the scanned range does not change membership of
in-range ports. -/
theorem contains_filter_range (used : List Nat) (lo hi p : Nat)
    (h1 : lo ≤ p) (h2 : p ≤ hi) :
    (used.filter (fun q => decide (lo ≤ q) && decide (q ≤ hi))).contains p =
      used.contains p := by
  by_cases hp : p ∈ used
  · simp [List.mem_filter, hp, h1, h2]
  · simp [List.mem_filter, hp]

/-- Membership in an appended exclusion list splits. -/
theorem contains_appendL (l1 l2 : List Nat) (p : Nat) :
    (l1 ++ l2).contains p = (l1.contains p || l2.contains p) := by
  by_cases h1 : p ∈ l1 <;> by_cases h2 : p ∈ l2 <;> simp [h1, h2]

/-- AllocatePort on the configuration the resolver builds — reserved holding
the run's allocations appended with the configured reserved ports — equals
the specification's first free port of [lo, hi] outside the claim union. -/
theorem allocatePort_eq_firstFree (used resv allocated : List Nat)
    (priv : Bool) (lo hi : Nat) :
    allocatePort used ⟨⟨lo, hi⟩, allocated ++ resv, priv⟩ =
      firstFreePort (claimExcluded used resv allocated priv) lo hi := by
  unfold allocatePort allocScan firstFreePort
  apply find?_congrL
  intro p hp
  have hmem : lo ≤ p ∧ p < lo + (hi + 1 - lo) := List.mem_range'_1.mp hp
  have h1 : lo ≤ p := hmem.1
  have h2 : p ≤ hi := by omega
  unfold excludedPort claimExcluded detectUsedPortsInRange
  rw [contains_filter_range used lo hi p h1 h2, contains_appendL]
  have hb : ∀ a b c d : Bool, (a || (c || b) || d) = (a || b || c || d) := by
    decide
  rw [hb]

/-- The start port the resolver computes is the maximum of conflict.Port+1
and the configured range start. -/
theorem startPort_eq_max (p s : Nat) :
    (if p + 1 < s then s else p + 1) = max (p + 1) s := by
  rcases Nat.lt_or_ge (p + 1) s with h | h
  · rw [if_pos h, Nat.max_eq_right (by omega)]
  · rw [if_neg (by omega), Nat.max_eq_left h]

/-- The auto-increment resolver equals its specification for every state of
the run exclusion list. -/
theorem resolveAux_eq_spec (used : List Nat) (pc : PortConfig) :
    ∀ (cs : List PortConflictInfo) (allocated : List Nat),
      resolvePortConflictsAux used pc cs allocated =
        specResolveAux used pc cs allocated := by
  intro cs
  induction cs with
  | nil => intro allocated; rfl
  | cons c rest ih =>
    intro allocated
    simp only [resolvePortConflictsAux, specResolveAux, startPort_eq_max,
      allocatePort_eq_firstFree]
    rcases firstFreePort
        (claimExcluded used pc.reserved allocated pc.excludePrivileged)
        (max (c.port + 1) pc.range.start) pc.range.stop with _ | p
    · rcases firstFreePort
          (claimExcluded used pc.reserved allocated pc.excludePrivileged)
          pc.range.start pc.range.stop with _ | p
      · simp only [ih]
      · simp only [ih]
    · simp only [ih]

/-- A port outside the claim union belongs to none of its parts. -/
theorem claimExcluded_false {used resv alloc : List Nat} {priv : Bool}
    {p : Nat} (h : claimExcluded used resv alloc priv p = false) :
    p ∉ used ∧ p ∉ resv ∧ p ∉ alloc := by
  unfold claimExcluded at h
  simp only [Bool.or_eq_false_iff] at h
  exact ⟨by simpa using h.1.1.1, by simpa using h.1.1.2, by simpa using h.1.2⟩

/-- A found first free port is outside the claim union. -/
theorem firstFreePort_some {excl : Nat → Bool} {lo hi p : Nat}
    (h : firstFreePort excl lo hi = some p) : excl p = false := by
  have := List.find?_some h
  simpa using this

/-- A conflict resolved to p contributes p first. -/
theorem resolvedPorts_cons_some (c : PortConflictInfo) (p : Nat)
    (l : List PortConflictInfo) :
    resolvedPorts ({ c with resolution := some ⟨p⟩ } :: l) =
      p :: resolvedPorts l := by
  simp [resolvedPorts]

/-- An unresolved conflict contributes nothing. -/
theorem resolvedPorts_cons_none (c : PortConflictInfo)
    (hc : c.resolution = none) (l : List PortConflictInfo) :
    resolvedPorts (c :: l) = resolvedPorts l := by
  simp [resolvedPorts, hc]

/-- Invariant of the resolver loop on detector output (conflicts arrive
without resolutions): the resolved ports are pairwise distinct and outside
used, reserved and the incoming exclusion list. -/
theorem resolveAux_invariant (used : List Nat) (pc : PortConfig) :
    ∀ (cs : List PortConflictInfo) (allocated : List Nat),
      (∀ c ∈ cs, c.resolution = none) →
      ((resolvedPorts (resolvePortConflictsAux used pc cs allocated)).Nodup ∧
        ∀ p ∈ resolvedPorts (resolvePortConflictsAux used pc cs allocated),
          p ∉ used ∧ p ∉ pc.reserved ∧ p ∉ allocated) := by
  intro cs
  induction cs with
  | nil =>
    intro allocated _
    simp [resolvePortConflictsAux, resolvedPorts]
  | cons c rest ih =>
    intro allocated hclean
    have hcr : ∀ x ∈ rest, x.resolution = none :=
      fun x hx => hclean x (List.mem_cons_of_mem c hx)
    simp only [resolvePortConflictsAux, allocatePort_eq_firstFree]
    rcases h1 : firstFreePort
        (claimExcluded used pc.reserved allocated pc.excludePrivileged)
        (if c.port + 1 < pc.range.start then pc.range.start else c.port + 1)
        pc.range.stop with _ | p
    · rcases h2 : firstFreePort
          (claimExcluded used pc.reserved allocated pc.excludePrivileged)
          pc.range.start pc.range.stop with _ | p
      · rw [resolvedPorts_cons_none c (hclean c (List.mem_cons_self c rest))]
        exact ih allocated hcr
      · rw [resolvedPorts_cons_some]
        obtain ⟨hpu, hpr, hpa⟩ := claimExcluded_false (firstFreePort_some h2)
        obtain ⟨ihnd, ihall⟩ := ih (allocated ++ [p]) hcr
        refine ⟨?_, ?_⟩
        · refine List.nodup_cons.mpr ⟨?_, ihnd⟩
          intro hm
          have := (ihall p hm).2.2
          simp at this
        · intro q hq
          rcases List.mem_cons.mp hq with rfl | hq
          · exact ⟨hpu, hpr, hpa⟩
          · have := ihall q hq
            refine ⟨this.1, this.2.1, fun hqa => this.2.2 ?_⟩
            exact List.mem_append_left _ hqa
    · rw [resolvedPorts_cons_some]
      obtain ⟨hpu, hpr, hpa⟩ := claimExcluded_false (firstFreePort_some h1)
      obtain ⟨ihnd, ihall⟩ := ih (allocated ++ [p]) hcr
      refine ⟨?_, ?_⟩
      · refine List.nodup_cons.mpr ⟨?_, ihnd⟩
        intro hm
        have := (ihall p hm).2.2
        simp at this
      · intro q hq
        rcases List.mem_cons.mp hq with rfl | hq
        · exact ⟨hpu, hpr, hpa⟩
        · have := ihall q hq
          refine ⟨this.1, this.2.1, fun hqa => this.2.2 ?_⟩
          exact List.mem_append_left _ hqa

/-- Claim C1 (amended): the auto-increment resolver takes, for each conflict
in input order, the first port of [max(conflict.Port+1, Range.Start),
Range.End] outside used ∪ reserved ∪ already-resolved-this-run — and outside
1..1023 when ExcludePrivileged is set, the correction the counterexample
forces — restarting once from Range.Start, skipping the conflict when both
searches fail, and growing the run exclusion list on every success; hence on
detector output the resolved ports are pairwise distinct and outside the
system-used and reserved sets. -/
theorem auto_increment_resolution (used : List Nat) (pc : PortConfig)
    (cs : List PortConflictInfo) (hclean : ∀ c ∈ cs, c.resolution = none) :
    resolvePortConflicts used pc cs = specResolvePortConflicts used pc cs ∧
    (resolvedPorts (resolvePortConflicts used pc cs)).Nodup ∧
    ∀ p ∈ resolvedPorts (resolvePortConflicts used pc cs),
      p ∉ used ∧ p ∉ pc.reserved := by
  unfold resolvePortConflicts specResolvePortConflicts
  obtain ⟨hnd, hall⟩ := resolveAux_invariant used pc cs [] hclean
  exact ⟨resolveAux_eq_spec used pc cs [],
    hnd, fun p hp => ⟨(hall p hp).1, (hall p hp).2.1⟩⟩

/-- Witness for C1: one system conflict on port 3000 with range 8000..9000
resolves to 8000, distinct and outside the probe and reserved sets. -/
theorem auto_increment_resolution_witness :
    (∀ c ∈ ([⟨"web", "web", 3000, "tcp", .system, none⟩] :
        List PortConflictInfo), c.resolution = none) ∧
    resolvePortConflicts [3000] ⟨⟨8000, 9000⟩, [], false⟩
        [⟨"web", "web", 3000, "tcp", .system, none⟩] =
      specResolvePortConflicts [3000] ⟨⟨8000, 9000⟩, [], false⟩
        [⟨"web", "web", 3000, "tcp", .system, none⟩] ∧
    ∀ p ∈ resolvedPorts (resolvePortConflicts [3000] ⟨⟨8000, 9000⟩, [], false⟩
        [⟨"web", "web", 3000, "tcp", .system, none⟩]),
      p ∉ [3000] ∧ p ∉ ([] : List Nat) := by
  have h := auto_increment_resolution [3000] ⟨⟨8000, 9000⟩, [], false⟩
    [⟨"web", "web", 3000, "tcp", .system, none⟩] (by decide)
  exact ⟨by decide, h.1, h.2.2⟩

/-- Counterexample to C1 as stated: with ExcludePrivileged set, range
1000..2000 and a conflict on port 500, the code allocates 1024 although 1000
is the first port at or above max(501, 1000) outside used ∪ reserved ∪
already-resolved (all empty here): ports 1..1023 are also excluded. -/
theorem auto_increment_privileged_counterexample :
    (resolvePortConflicts [] ⟨⟨1000, 2000⟩, [], true⟩
        [⟨"web", "web", 500, "tcp", .system, none⟩]).map (·.resolution) =
      [some ⟨1024⟩] ∧
    1000 ∉ ([] : List Nat) ∧ max (500 + 1) 1000 ≤ 1000 ∧ (1000 : Nat) < 1024 := by
  refine ⟨?_, by decide, by decide, by decide⟩
  decide

/-- The per-octet remap of a contained address between equal-length canonical
subnets equals new base plus host offset and stays in the new subnet, in
terms of the embedding's IPv4 and CIDR values. -/
theorem remapIP_equal_masks (oldSub newSub : CIDR) (ip : IPv4)
    (hmask : oldSub.maskLen = newSub.maskLen) (hm : newSub.maskLen ≤ 32)
    (hov : oldSub.base.Valid) (hnv : newSub.base.Valid) (hiv : ip.Valid)
    (hoc : oldSub.base.toNat % 2 ^ (32 - newSub.maskLen) = 0)
    (hnc : newSub.base.toNat % 2 ^ (32 - newSub.maskLen) = 0)
    (hcont : oldSub.containsIP ip = true) :
    (remapIP oldSub.base newSub.base ip).toNat =
      newSub.base.toNat + (ip.toNat - oldSub.base.toNat) ∧
    newSub.containsIP (remapIP oldSub.base newSub.base ip) = true := by
  obtain ⟨ob, mo⟩ := oldSub
  obtain ⟨nb, mn⟩ := newSub
  obtain ⟨o1, o2, o3, o4⟩ := ob
  obtain ⟨n1, n2, n3, n4⟩ := nb
  obtain ⟨a1, a2, a3, a4⟩ := ip
  obtain ⟨hv1, hv2, hv3, hv4⟩ := hov
  obtain ⟨hv5, hv6, hv7, hv8⟩ := hnv
  obtain ⟨hv9, hv10, hv11, hv12⟩ := hiv
  simp only at hmask hm hoc hnc
  subst hmask
  simp only [CIDR.containsIP, IPv4.toNat, remapIP, remapOctet,
    beq_iff_eq] at hcont hoc hnc ⊢
  have := remap_equal_masks_octets o1 o2 o3 o4 n1 n2 n3 n4 a1 a2 a3 a4 mo hm
    hv1 hv2 hv3 hv4 hv5 hv6 hv7 hv8 hv9 hv10 hv11 hv12 hoc hnc hcont
  exact ⟨this.1, this.2⟩

/-- Canonical /24 bases have last octet zero, so a /24 to /24 remap keeps the
address's last octet. -/
theorem remapIP_slash24_last_octet (oldB newB ip : IPv4)
    (hov : oldB.Valid) (hnv : newB.Valid) (hiv : ip.Valid)
    (hoc : oldB.toNat % 256 = 0) (hnc : newB.toNat % 256 = 0) :
    (remapIP oldB newB ip).d = ip.d := by
  obtain ⟨o1, o2, o3, o4⟩ := oldB
  obtain ⟨n1, n2, n3, n4⟩ := newB
  obtain ⟨a1, a2, a3, a4⟩ := ip
  obtain ⟨hv1, hv2, hv3, hv4⟩ := hov
  obtain ⟨hv5, hv6, hv7, hv8⟩ := hnv
  obtain ⟨hv9, hv10, hv11, hv12⟩ := hiv
  have hd : (remapIP ⟨o1, o2, o3, o4⟩ ⟨n1, n2, n3, n4⟩ ⟨a1, a2, a3, a4⟩).d =
      (n4 + 256 + a4 - o4) % 256 := rfl
  have ha : (⟨a1, a2, a3, a4⟩ : IPv4).d = a4 := rfl
  have ho4 : o4 < 256 := hv4
  have hn4 : n4 < 256 := hv8
  have ha4 : a4 < 256 := hv12
  simp only [IPv4.toNat] at hoc hnc
  rw [hd, ha]
  clear hv1 hv2 hv3 hv4 hv5 hv6 hv7 hv8 hv9 hv10 hv11 hv12
  omega

/-- Claim C5 (amended): in NetworkConflictResolverImpl.RemapIPAddressesToNewSubnet,
every service IP contained in the old subnet whose per-octet candidate —
the new base plus the octet-wise offset of the IP from the old base, each
octet reduced modulo 256 as the Go byte conversion does — falls inside the
new subnet is emitted with exactly that candidate, and every emitted entry
arose this way; an IP outside the old subnet, or a candidate outside the new
subnet, is skipped without failing the operation.  For equal-length masks
with canonical (network-address) bases the candidate is newBase + (ip -
oldBase) and always lands in the new subnet, and a canonical /24 to /24
remap preserves the last octet.  (The unified generator's string remap does
not satisfy the claim: see the counterexample.) -/
theorem remap_ip_addresses_per_octet (oldSub newSub : CIDR)
    (ips : List (String × IPv4)) :
    (∀ n ip, (n, ip) ∈ ips → oldSub.containsIP ip = true →
      newSub.containsIP (remapIP oldSub.base newSub.base ip) = true →
      (n, remapIP oldSub.base newSub.base ip) ∈
        remapIPAddressesToNewSubnet oldSub newSub ips) ∧
    (∀ n ip2, (n, ip2) ∈ remapIPAddressesToNewSubnet oldSub newSub ips →
      ∃ ip, (n, ip) ∈ ips ∧ oldSub.containsIP ip = true ∧
        ip2 = remapIP oldSub.base newSub.base ip ∧
        newSub.containsIP ip2 = true) ∧
    (oldSub.maskLen = newSub.maskLen → newSub.maskLen ≤ 32 →
      oldSub.base.Valid → newSub.base.Valid →
      oldSub.base.toNat % 2 ^ (32 - newSub.maskLen) = 0 →
      newSub.base.toNat % 2 ^ (32 - newSub.maskLen) = 0 →
      ∀ ip : IPv4, ip.Valid → oldSub.containsIP ip = true →
        (remapIP oldSub.base newSub.base ip).toNat =
          newSub.base.toNat + (ip.toNat - oldSub.base.toNat) ∧
        newSub.containsIP (remapIP oldSub.base newSub.base ip) = true) ∧
    (oldSub.base.Valid → newSub.base.Valid →
      oldSub.base.toNat % 256 = 0 → newSub.base.toNat % 256 = 0 →
      ∀ ip : IPv4, ip.Valid →
        (remapIP oldSub.base newSub.base ip).d = ip.d) := by
  refine ⟨?_, ?_, ?_, ?_⟩
  · intro n ip hmem hold hnew
    unfold remapIPAddressesToNewSubnet
    simp only [List.mem_filterMap]
    refine ⟨(n, ip), hmem, ?_⟩
    rw [if_pos hold, if_pos hnew]
  · intro n ip2 hmem
    unfold remapIPAddressesToNewSubnet at hmem
    simp only [List.mem_filterMap] at hmem
    obtain ⟨⟨n0, ip⟩, hin, hsome⟩ := hmem
    by_cases hold : oldSub.containsIP ip
    · rw [if_pos hold] at hsome
      by_cases hnew : newSub.containsIP (remapIP oldSub.base newSub.base ip)
      · rw [if_pos hnew] at hsome
        simp only [Option.some.injEq, Prod.mk.injEq] at hsome
        obtain ⟨rfl, rfl⟩ := hsome
        exact ⟨ip, hin, hold, rfl, hnew⟩
      · rw [if_neg hnew] at hsome
        simp at hsome
    · rw [if_neg hold] at hsome
      simp at hsome
  · intro hmask hm hov hnv hoc hnc ip hiv hcont
    exact remapIP_equal_masks oldSub newSub ip hmask hm hov hnv hiv hoc hnc hcont
  · intro hov hnv hoc hnc ip hiv
    exact remapIP_slash24_last_octet oldSub.base newSub.base ip hov hnv hiv hoc hnc

/-- Witness for C5: the db service at 172.20.0.5 inside 172.20.0.0/24,
remapped to 10.20.0.0/24, is emitted at 10.20.0.5 with the last octet kept
and the candidate equal to base plus offset. -/
theorem remap_ip_addresses_per_octet_witness :
    ("db", (⟨10, 20, 0, 5⟩ : IPv4)) ∈
      remapIPAddressesToNewSubnet ⟨⟨172, 20, 0, 0⟩, 24⟩ ⟨⟨10, 20, 0, 0⟩, 24⟩
        [("db", ⟨172, 20, 0, 5⟩)] ∧
    (remapIP (⟨172, 20, 0, 0⟩ : IPv4) ⟨10, 20, 0, 0⟩ ⟨172, 20, 0, 5⟩).toNat =
      (⟨10, 20, 0, 0⟩ : IPv4).toNat +
        ((⟨172, 20, 0, 5⟩ : IPv4).toNat - (⟨172, 20, 0, 0⟩ : IPv4).toNat) ∧
    (remapIP (⟨172, 20, 0, 0⟩ : IPv4) ⟨10, 20, 0, 0⟩ ⟨172, 20, 0, 5⟩).d =
      (⟨172, 20, 0, 5⟩ : IPv4).d := by
  have h := remap_ip_addresses_per_octet ⟨⟨172, 20, 0, 0⟩, 24⟩
    ⟨⟨10, 20, 0, 0⟩, 24⟩ [("db", ⟨172, 20, 0, 5⟩)]
  refine ⟨?_, ?_, ?_⟩
  · exact h.1 "db" ⟨172, 20, 0, 5⟩ (by decide) (by decide) (by decide)
  · exact (h.2.2.1 (by decide) (by decide) (by decide) (by decide) (by decide)
      (by decide) ⟨172, 20, 0, 5⟩ (by decide) (by decide)).1
  · exact h.2.2.2 (by decide) (by decide) (by decide) (by decide)
      ⟨172, 20, 0, 5⟩ (by decide)

end Gopose
